import Mathlib

/-!
A shallow embedding of the Ember language implementation
(lexer, expression parser, environment, tree-walking interpreter, builtins)
together with theorems settling the specification claims.

Modelling conventions:
- Ember numbers are Python floats in the source; they are modelled as
  rationals.  All numeric literals and arithmetic appearing in the claims
  are exact in double precision, so the rational model agrees with the
  source on every value a claim touches.
- Python lists and environments are mutable and aliased; they are modelled
  as heaps (lists indexed by natural numbers) threaded through evaluation.
- Python exceptions are modelled by an explicit exception result
  (EmberError values for the error classes, a dedicated constructor for
  the ReturnSignal control-flow exception).
- Unbounded loops and recursion are modelled with fuel; running out of
  fuel is a distinct outcome, never identified with an error of the
  program under study.
- Python int() on a float truncates toward zero; str.isalpha is modelled
  on the ASCII range actually exercised by the language tests.
-/

namespace Ember

/-- Truncation toward zero: the behaviour of Python int() on a float. -/
def pyInt (q : ℚ) : ℤ := if 0 ≤ q then ⌊q⌋ else -⌊-q⌋

/-- Python float modulo: result has the sign of the divisor,
a - b * floor(a / b) in exact arithmetic. -/
def pyMod (a b : ℚ) : ℚ := a - b * ⌊a / b⌋

/-- Token types of the Ember lexer (tokens.py, class TokenType). -/
inductive TokenType where
  | NUMBER | STRING | IDENTIFIER | TRUE | FALSE | NIL
  | LET | FN | IF | ELIF | ELSE | WHILE | DO | END | RETURN | AND | OR | NOT
  | PLUS | MINUS | STAR | SLASH | PERCENT
  | EQUAL | EQUAL_EQUAL | BANG_EQUAL
  | LESS | LESS_EQUAL | GREATER | GREATER_EQUAL
  | LPAREN | RPAREN | LBRACKET | RBRACKET | COMMA
  | NEWLINE | EOF
deriving DecidableEq, Repr

/-- Decoded literal payload of a token (Python: None, float, str or bool). -/
inductive LitVal where
  | numL (q : ℚ)
  | strL (s : String)
  | boolL (b : Bool)
deriving DecidableEq, Repr

/-- A token (tokens.py, dataclass Token).  Line and column are Python ints,
hence integers. -/
structure Token where
  type : TokenType
  lexeme : String
  literal : Option LitVal
  line : ℤ
  col : ℤ
deriving DecidableEq, Repr

/-- The keyword table KEYWORDS of tokens.py. -/
def KEYWORDS : List (String × TokenType) :=
  [("let", .LET), ("fn", .FN), ("if", .IF), ("elif", .ELIF), ("else", .ELSE),
   ("while", .WHILE), ("do", .DO), ("end", .END), ("return", .RETURN),
   ("and", .AND), ("or", .OR), ("not", .NOT), ("true", .TRUE),
   ("false", .FALSE), ("nil", .NIL)]

/-- Dictionary lookup in the keyword table (KEYWORDS.get). -/
def keywordType (s : String) : Option TokenType :=
  (KEYWORDS.find? (fun p => p.1 == s)).map (fun p => p.2)

/-- AST nodes (ast_nodes.py).  The Python source has a single ASTNode class
hierarchy covering expressions, statements and the program root; every
variant carries line and column. -/
inductive ASTNode where
  | numberLiteral (line column : ℤ) (value : ℚ)
  | stringLiteral (line column : ℤ) (value : String)
  | boolLiteral (line column : ℤ) (value : Bool)
  | nilLiteral (line column : ℤ)
  | listLiteral (line column : ℤ) (elements : List ASTNode)
  | identifier (line column : ℤ) (name : String)
  | unaryOp (line column : ℤ) (operator : String) (operand : ASTNode)
  | binaryOp (line column : ℤ) (left : ASTNode) (operator : String) (right : ASTNode)
  | functionCall (line column : ℤ) (callee : ASTNode) (arguments : List ASTNode)
  | indexAccess (line column : ℤ) (obj index : ASTNode)
  | letStatement (line column : ℤ) (name : String) (value : ASTNode)
  | indexAssignment (line column : ℤ) (obj index value : ASTNode)
  | ifStatement (line column : ℤ) (condition : ASTNode)
      (thenBody : List ASTNode) (elifClauses : List (ASTNode × List ASTNode))
      (elseBody : Option (List ASTNode))
  | whileStatement (line column : ℤ) (condition : ASTNode) (body : List ASTNode)
  | functionDef (line column : ℤ) (name : String) (params : List String)
      (body : List ASTNode)
  | returnStatement (line column : ℤ) (value : Option ASTNode)
  | expressionStatement (line column : ℤ) (expression : ASTNode)
  | program (line column : ℤ) (statements : List ASTNode)

/-- The seven builtin functions registered by builtins.py.  Within one
interpreter run each is a unique Python object, so object identity
coincides with this tag. -/
inductive BName where
  | printB | lenB | appendB | typeB | strB | numB | inputB
deriving DecidableEq, Repr

/-- A user-defined Ember function (interpreter.py, dataclass EmberFunction).
The closure environment is captured by reference: a heap index. -/
structure EmberFunction where
  name : String
  params : List String
  body : List ASTNode
  closure : ℕ

/-- Runtime values.  Python None, bool, float, str, list, EmberFunction and
EmberBuiltin.  Lists are reference values: an index into the list heap. -/
inductive Value where
  | nil
  | bool (b : Bool)
  | num (q : ℚ)
  | str (s : String)
  | listRef (r : ℕ)
  | fn (f : EmberFunction)
  | builtin (b : BName)

/-- The three error classes of errors.py (the abstract base is never
instantiated by the core). -/
inductive ErrKind where
  | syntaxErr | runtimeErr | typeErr
deriving DecidableEq, Repr

/-- An Ember error: kind, message, line, column (errors.py). -/
structure EmberError where
  kind : ErrKind
  msg : String
  line : ℤ
  col : ℤ
deriving DecidableEq, Repr

/-- An abnormal outcome: an EmberError, the ReturnSignal control-flow
exception carrying a value, or fuel exhaustion (a model artifact standing
for computations the fuel did not cover, never for programme errors). -/
inductive Exc where
  | err (e : EmberError)
  | ret (v : Value)
  | fuelOut

mutual

/-- Structural equality of AST nodes: the equality Python derives for the
frozen dataclasses of ast_nodes.py (used, via dataclass equality of
EmberFunction, by the == operator on function values). -/
def astBeq : ASTNode → ASTNode → Bool
  | .numberLiteral l1 c1 v1, .numberLiteral l2 c2 v2 => l1 == l2 && c1 == c2 && v1 == v2
  | .stringLiteral l1 c1 v1, .stringLiteral l2 c2 v2 => l1 == l2 && c1 == c2 && v1 == v2
  | .boolLiteral l1 c1 v1, .boolLiteral l2 c2 v2 => l1 == l2 && c1 == c2 && v1 == v2
  | .nilLiteral l1 c1, .nilLiteral l2 c2 => l1 == l2 && c1 == c2
  | .listLiteral l1 c1 es1, .listLiteral l2 c2 es2 =>
      l1 == l2 && c1 == c2 && astListBeq es1 es2
  | .identifier l1 c1 n1, .identifier l2 c2 n2 => l1 == l2 && c1 == c2 && n1 == n2
  | .unaryOp l1 c1 o1 a1, .unaryOp l2 c2 o2 a2 =>
      l1 == l2 && c1 == c2 && o1 == o2 && astBeq a1 a2
  | .binaryOp l1 c1 a1 o1 b1, .binaryOp l2 c2 a2 o2 b2 =>
      l1 == l2 && c1 == c2 && astBeq a1 a2 && o1 == o2 && astBeq b1 b2
  | .functionCall l1 c1 f1 as1, .functionCall l2 c2 f2 as2 =>
      l1 == l2 && c1 == c2 && astBeq f1 f2 && astListBeq as1 as2
  | .indexAccess l1 c1 o1 i1, .indexAccess l2 c2 o2 i2 =>
      l1 == l2 && c1 == c2 && astBeq o1 o2 && astBeq i1 i2
  | .letStatement l1 c1 n1 v1, .letStatement l2 c2 n2 v2 =>
      l1 == l2 && c1 == c2 && n1 == n2 && astBeq v1 v2
  | .indexAssignment l1 c1 o1 i1 v1, .indexAssignment l2 c2 o2 i2 v2 =>
      l1 == l2 && c1 == c2 && astBeq o1 o2 && astBeq i1 i2 && astBeq v1 v2
  | .ifStatement l1 c1 cd1 t1 e1 el1, .ifStatement l2 c2 cd2 t2 e2 el2 =>
      l1 == l2 && c1 == c2 && astBeq cd1 cd2 && astListBeq t1 t2 &&
        astClausesBeq e1 e2 && astOptListBeq el1 el2
  | .whileStatement l1 c1 cd1 b1, .whileStatement l2 c2 cd2 b2 =>
      l1 == l2 && c1 == c2 && astBeq cd1 cd2 && astListBeq b1 b2
  | .functionDef l1 c1 n1 p1 b1, .functionDef l2 c2 n2 p2 b2 =>
      l1 == l2 && c1 == c2 && n1 == n2 && p1 == p2 && astListBeq b1 b2
  | .returnStatement l1 c1 v1, .returnStatement l2 c2 v2 =>
      l1 == l2 && c1 == c2 && astOptBeq v1 v2
  | .expressionStatement l1 c1 e1, .expressionStatement l2 c2 e2 =>
      l1 == l2 && c1 == c2 && astBeq e1 e2
  | .program l1 c1 s1, .program l2 c2 s2 => l1 == l2 && c1 == c2 && astListBeq s1 s2
  | _, _ => false

/-- Structural equality of AST node lists. -/
def astListBeq : List ASTNode → List ASTNode → Bool
  | [], [] => true
  | a :: as1, b :: bs1 => astBeq a b && astListBeq as1 bs1
  | _, _ => false

/-- Structural equality of elif-clause lists. -/
def astClausesBeq : List (ASTNode × List ASTNode) → List (ASTNode × List ASTNode) → Bool
  | [], [] => true
  | (c1, b1) :: r1, (c2, b2) :: r2 => astBeq c1 c2 && astListBeq b1 b2 && astClausesBeq r1 r2
  | _, _ => false

/-- Structural equality of optional AST nodes. -/
def astOptBeq : Option ASTNode → Option ASTNode → Bool
  | none, none => true
  | some a, some b => astBeq a b
  | _, _ => false

/-- Structural equality of optional AST node lists. -/
def astOptListBeq : Option (List ASTNode) → Option (List ASTNode) → Bool
  | none, none => true
  | some a, some b => astListBeq a b
  | _, _ => false

end

/-- Dataclass equality of EmberFunction values (name, params, body, closure
compared fieldwise; the closure environment compares by reference). -/
def fnBeq (f g : EmberFunction) : Bool :=
  f.name == g.name && f.params == g.params && astListBeq f.body g.body &&
    f.closure == g.closure

/-- Lexer source position: 1-based line and column (lexer.py fields
_line and _column). -/
structure LexPos where
  line : ℤ
  col : ℤ
deriving DecidableEq, Repr

/-- Position update of Lexer._advance: a newline starts a new line at
column 1, any other character moves one column right. -/
def advPos (c : Char) (p : LexPos) : LexPos :=
  if c = '\n' then ⟨p.line + 1, 1⟩ else ⟨p.line, p.col + 1⟩

/-- Consume a line comment: everything up to, not including, the next
newline (lexer.py, the comment branch of _scan_token). -/
def skipComment : List Char → LexPos → List Char × LexPos
  | [], p => ([], p)
  | c :: rest, p =>
      if c = '\n' then (c :: rest, p) else skipComment rest (advPos c p)

/-- Decoding of one escape sequence inside a string literal: n, t,
backslash and double quote map to their characters; any other character
is passed through preceded by the backslash (lexer.py _read_string). -/
def escDecode (e : Char) : List Char :=
  if e = 'n' then ['\n']
  else if e = 't' then ['\t']
  else if e = '\\' then ['\\']
  else if e = '"' then ['"']
  else ['\\', e]

/-- The scanning loop of Lexer._read_string, after the opening quote.
Returns the decoded text, the remaining input and the position after the
closing quote, or none when the input ends first (unterminated string). -/
def readStringChars : List Char → LexPos → List Char → Option (String × List Char × LexPos)
  | [], _, _ => none
  | '"' :: rest, p, acc => some (String.mk acc, rest, advPos '"' p)
  | '\\' :: [], _, _ => none
  | '\\' :: e :: rest, p, acc =>
      readStringChars rest (advPos e (advPos '\\' p)) (acc ++ escDecode e)
  | c :: rest, p, acc => readStringChars rest (advPos c p) (acc ++ [c])

/-- Consume a maximal run of decimal digits (the digit loops of
Lexer._read_number). -/
def takeDigits : List Char → List Char × List Char
  | [] => ([], [])
  | c :: rest =>
      if c.isDigit then
        let (d, r) := takeDigits rest
        (c :: d, r)
      else ([], c :: rest)

/-- Consume a maximal run of identifier characters (alphanumeric or
underscore; Lexer._read_identifier). -/
def takeIdentRest : List Char → List Char × List Char
  | [] => ([], [])
  | c :: rest =>
      if c.isAlphanum || c = '_' then
        let (d, r) := takeIdentRest rest
        (c :: d, r)
      else ([], c :: rest)

/-- Numeric value of a digit string (the effect of Python float() on a
plain decimal integer lexeme, exactly). -/
def digitsVal (ds : List Char) : ℕ :=
  ds.foldl (fun a c => 10 * a + (c.toNat - 48)) 0

/-- Numeric value of a decimal lexeme with integer part ip and fractional
digits fp (the effect of Python float() on the lexemes _read_number
builds; exact for every value studied here). -/
def decodeNum (ip fp : List Char) : ℚ :=
  (digitsVal ip : ℚ) + (digitsVal fp : ℚ) / (10 : ℚ) ^ fp.length

/-- Splitting of the digits of a number after its first digit: remaining
integer-part digits, fractional digits (empty when no fraction was
consumed: a dot is consumed only when directly followed by a digit), and
the rest of the input (Lexer._read_number). -/
def splitNumber (rest : List Char) : List Char × List Char × List Char :=
  let (ds, rest1) := takeDigits rest
  match rest1 with
  | '.' :: d :: rest2 =>
      if d.isDigit then
        let (fs, rest3) := takeDigits (d :: rest2)
        (ds, fs, rest3)
      else (ds, [], rest1)
  | _ => (ds, [], rest1)

/-- The single-character token table of Lexer._scan_token. -/
def SINGLE_TOKENS : List (Char × TokenType) :=
  [('+', .PLUS), ('-', .MINUS), ('*', .STAR), ('/', .SLASH), ('%', .PERCENT),
   ('=', .EQUAL), ('<', .LESS), ('>', .GREATER), ('(', .LPAREN),
   (')', .RPAREN), ('[', .LBRACKET), (']', .RBRACKET), (',', .COMMA)]

/-- Dictionary lookup in the single-character token table. -/
def singleTokType (c : Char) : Option TokenType :=
  (SINGLE_TOKENS.find? (fun p => p.1 == c)).map (fun p => p.2)

/-- Lexer._emit_newline: append a NEWLINE token unless the token list is
empty or already ends in a NEWLINE (consecutive newlines collapse).  The
argument p is the position after the newline character was consumed. -/
def emitNewline (toks : List Token) (p : LexPos) : List Token :=
  match toks.getLast? with
  | none => toks
  | some t =>
      if t.type = TokenType.NEWLINE then toks
      else toks ++ [⟨.NEWLINE, "\\n", none, p.line - 1, p.col⟩]

/-- The scanning loop of Lexer.tokenize: repeatedly run _scan_token until
the input is exhausted.  Fuel only guards the recursion; every step
consumes at least one character, so source.length + 1 fuel never runs
out. -/
def runLex : ℕ → List Char → LexPos → List Token → Except Exc (List Token × LexPos)
  | 0, _, _, _ => .error .fuelOut
  | _ + 1, [], p, toks => .ok (toks, p)
  | fuel + 1, c :: rest, p, toks =>
      let p1 := advPos c p
      if c = ' ' ∨ c = '\t' ∨ c = '\r' then
        runLex fuel rest p1 toks
      else if c = '\n' then
        runLex fuel rest p1 (emitNewline toks p1)
      else if c = '#' then
        let (rest2, p2) := skipComment rest p1
        runLex fuel rest2 p2 toks
      else if c = '"' then
        match readStringChars rest p1 [] with
        | none => .error (.err ⟨.syntaxErr, "Unterminated string", p.line, p.col⟩)
        | some (text, rest2, p2) =>
            let lexeme := "\"" ++ text ++ "\""
            runLex fuel rest2 p2
              (toks ++ [⟨.STRING, lexeme, some (.strL text), p2.line,
                p2.col - lexeme.length⟩])
      else if c.isDigit then
        let (ds, fs, rest1) := splitNumber rest
        let lexchars := c :: ds ++ (if fs.isEmpty then [] else '.' :: fs)
        let q := decodeNum (c :: ds) fs
        let p2 : LexPos := ⟨p1.line, p1.col + ds.length +
          (if fs.isEmpty then 0 else 1 + fs.length)⟩
        runLex fuel rest1 p2
          (toks ++ [⟨.NUMBER, String.mk lexchars, some (.numL q), p.line, p.col⟩])
      else if c.isAlpha ∨ c = '_' then
        let (cs, rest1) := takeIdentRest rest
        let lexeme := String.mk (c :: cs)
        let tt := (keywordType lexeme).getD .IDENTIFIER
        let lit : Option LitVal :=
          if tt = .TRUE then some (.boolL true)
          else if tt = .FALSE then some (.boolL false)
          else none
        runLex fuel rest1 ⟨p1.line, p1.col + cs.length⟩
          (toks ++ [⟨tt, lexeme, lit, p.line, p.col⟩])
      else
        match c, rest with
        | '=', '=' :: rest2 =>
            runLex fuel rest2 ⟨p1.line, p1.col + 1⟩
              (toks ++ [⟨.EQUAL_EQUAL, "==", none, p.line, p.col⟩])
        | '!', '=' :: rest2 =>
            runLex fuel rest2 ⟨p1.line, p1.col + 1⟩
              (toks ++ [⟨.BANG_EQUAL, "!=", none, p.line, p.col⟩])
        | '<', '=' :: rest2 =>
            runLex fuel rest2 ⟨p1.line, p1.col + 1⟩
              (toks ++ [⟨.LESS_EQUAL, "<=", none, p.line, p.col⟩])
        | '>', '=' :: rest2 =>
            runLex fuel rest2 ⟨p1.line, p1.col + 1⟩
              (toks ++ [⟨.GREATER_EQUAL, ">=", none, p.line, p.col⟩])
        | _, _ =>
            match singleTokType c with
            | some tt =>
                runLex fuel rest p1
                  (toks ++ [⟨tt, String.singleton c, none, p.line, p.col⟩])
            | none =>
                .error (.err ⟨.syntaxErr,
                  "Unexpected character '" ++ String.singleton c ++ "'",
                  p1.line, p1.col - 1⟩)

/-- Lexer.tokenize: scan the whole source, then ensure the stream ends in
a NEWLINE (unless the last token already is one, or no token was
produced) followed by exactly one EOF token. -/
def tokenize (source : String) : Except Exc (List Token) :=
  match runLex (source.length + 1) source.toList ⟨1, 1⟩ [] with
  | .error e => .error e
  | .ok (toks, p) =>
      let toks1 :=
        match toks.getLast? with
        | none => toks
        | some t =>
            if t.type ≠ TokenType.NEWLINE ∧ t.type ≠ TokenType.EOF then
              toks ++ [⟨.NEWLINE, "\\n", none, p.line, p.col⟩]
            else toks
      .ok (toks1 ++ [⟨.EOF, "", none, p.line, p.col⟩])

/-- Precedence level PREC_NONE (parser.py). -/
def PREC_NONE : ℕ := 0
/-- Precedence level PREC_OR (parser.py). -/
def PREC_OR : ℕ := 1
/-- Precedence level PREC_AND (parser.py). -/
def PREC_AND : ℕ := 2
/-- Precedence level PREC_NOT (parser.py). -/
def PREC_NOT : ℕ := 3
/-- Precedence level PREC_EQUALITY (parser.py). -/
def PREC_EQUALITY : ℕ := 4
/-- Precedence level PREC_COMPARISON (parser.py). -/
def PREC_COMPARISON : ℕ := 5
/-- Precedence level PREC_ADDITION (parser.py). -/
def PREC_ADDITION : ℕ := 6
/-- Precedence level PREC_MULTIPLICATION (parser.py). -/
def PREC_MULTIPLICATION : ℕ := 7
/-- Precedence level PREC_UNARY (parser.py). -/
def PREC_UNARY : ℕ := 8
/-- Precedence level PREC_CALL (parser.py). -/
def PREC_CALL : ℕ := 9

/-- The infix precedence table INFIX_PRECEDENCE of parser.py, with the
dictionary lookup default PREC_NONE folded in (the parser always reads it
through .get(type, PREC_NONE)). -/
def infixPrecedence (tt : TokenType) : ℕ :=
  match tt with
  | .OR => PREC_OR
  | .AND => PREC_AND
  | .EQUAL_EQUAL => PREC_EQUALITY
  | .BANG_EQUAL => PREC_EQUALITY
  | .LESS => PREC_COMPARISON
  | .GREATER => PREC_COMPARISON
  | .LESS_EQUAL => PREC_COMPARISON
  | .GREATER_EQUAL => PREC_COMPARISON
  | .PLUS => PREC_ADDITION
  | .MINUS => PREC_ADDITION
  | .STAR => PREC_MULTIPLICATION
  | .SLASH => PREC_MULTIPLICATION
  | .PERCENT => PREC_MULTIPLICATION
  | .LPAREN => PREC_CALL
  | .LBRACKET => PREC_CALL
  | _ => PREC_NONE

/-- The token a parser reads past the list end.  The lexer terminates
every stream with EOF and Parser._advance never moves past EOF, so this
default is never consulted on lexer output (Python would raise
IndexError there). -/
def eofTok : Token := ⟨.EOF, "", none, 0, 0⟩

/-- Parser._current: the token at the current position. -/
def curTok (toks : List Token) (pos : ℕ) : Token :=
  (toks.get? pos).getD eofTok

/-- Position after Parser._advance: moves right except on EOF. -/
def nextPos (toks : List Token) (pos : ℕ) : ℕ :=
  if (curTok toks pos).type = TokenType.EOF then pos else pos + 1

/-- Parser._consume: take a token of the expected type or fail with a
SyntaxError built from the given message. -/
def consumeTok (toks : List Token) (pos : ℕ) (tt : TokenType) (msg : String) :
    Except Exc (Token × ℕ) :=
  let t := curTok toks pos
  if t.type = tt then .ok (t, nextPos toks pos)
  else .error (.err ⟨.syntaxErr, msg ++ ", got '" ++ t.lexeme ++ "'", t.line, t.col⟩)

/-- Numeric literal payload of a token.  NUMBER tokens produced by the
lexer always carry one; the default is never consulted on lexer output. -/
def litNum : Option LitVal → ℚ
  | some (.numL q) => q
  | _ => 0

/-- String literal payload of a token, with the same caveat as litNum. -/
def litStr : Option LitVal → String
  | some (.strL s) => s
  | _ => ""

/-- The mutually recursive expression-parsing methods of parser.py, as a
record of functions.  The recursion is tied below by a fuel-indexed
fixpoint (parserAt), so that every definition reduces definitionally. -/
structure ParserFns where
  prefixFn : List Token → ℕ → Except Exc (ASTNode × ℕ)
  exprFn : List Token → ℕ → ℕ → Except Exc (ASTNode × ℕ)
  loopFn : List Token → ASTNode → ℕ → ℕ → Except Exc (ASTNode × ℕ)
  infixFn : List Token → ASTNode → ℕ → ℕ → Except Exc (ASTNode × ℕ)
  commaFn : List Token → ℕ → List ASTNode → Except Exc (List ASTNode × ℕ)
  listLitFn : List Token → ℕ → Except Exc (ASTNode × ℕ)

/-- The zero-fuel parser: every entry point reports fuel exhaustion. -/
def parserStop : ParserFns :=
  ⟨fun _ _ => .error .fuelOut, fun _ _ _ => .error .fuelOut,
   fun _ _ _ _ => .error .fuelOut, fun _ _ _ _ => .error .fuelOut,
   fun _ _ _ => .error .fuelOut, fun _ _ => .error .fuelOut⟩

/-- One layer of the expression parser: each method of parser.py written
against the previous fuel layer rec. -/
def parserStep (rec : ParserFns) : ParserFns where
  /- Parser._parse_prefix: literals, identifiers, grouping, list literals
  and unary operators. -/
  prefixFn toks pos :=
      let t := curTok toks pos
      match t.type with
      | .NUMBER => .ok (.numberLiteral t.line t.col (litNum t.literal), nextPos toks pos)
      | .STRING => .ok (.stringLiteral t.line t.col (litStr t.literal), nextPos toks pos)
      | .TRUE => .ok (.boolLiteral t.line t.col true, nextPos toks pos)
      | .FALSE => .ok (.boolLiteral t.line t.col false, nextPos toks pos)
      | .NIL => .ok (.nilLiteral t.line t.col, nextPos toks pos)
      | .IDENTIFIER => .ok (.identifier t.line t.col t.lexeme, nextPos toks pos)
      | .LPAREN =>
          match rec.exprFn toks (nextPos toks pos) PREC_NONE with
          | .error e => .error e
          | .ok (e, pos1) =>
              match consumeTok toks pos1 .RPAREN "Expected ')' after expression" with
              | .error e2 => .error e2
              | .ok (_, pos2) => .ok (e, pos2)
      | .LBRACKET => rec.listLitFn toks pos
      | .MINUS =>
          match rec.exprFn toks (nextPos toks pos) PREC_UNARY with
          | .error e => .error e
          | .ok (operand, pos1) => .ok (.unaryOp t.line t.col "-" operand, pos1)
      | .NOT =>
          match rec.exprFn toks (nextPos toks pos) PREC_NOT with
          | .error e => .error e
          | .ok (operand, pos1) => .ok (.unaryOp t.line t.col "not" operand, pos1)
      | _ =>
          .error (.err ⟨.syntaxErr, "Unexpected token '" ++ t.lexeme ++ "'",
            t.line, t.col⟩)
  /- Parser._parse_expression: a prefix expression followed by the
  precedence-climbing loop. -/
  exprFn toks pos minPrec :=
      match rec.prefixFn toks pos with
      | .error e => .error e
      | .ok (left, pos1) => rec.loopFn toks left pos1 minPrec
  /- The while loop inside Parser._parse_expression: as long as the current
  token has infix precedence above minPrec, extend the left operand. -/
  loopFn toks left pos minPrec :=
      let t := curTok toks pos
      let prec := infixPrecedence t.type
      if prec ≤ minPrec then .ok (left, pos)
      else
        match rec.infixFn toks left pos prec with
        | .error e => .error e
        | .ok (left2, pos1) => rec.loopFn toks left2 pos1 minPrec
  /- Parser._parse_infix: a function call, an index access, or a binary
  operator parsed left-associatively (the right operand is parsed at the
  precedence of the operator itself). -/
  infixFn toks left pos prec :=
      let t := curTok toks pos
      if t.type = TokenType.LPAREN then
        let pos1 := nextPos toks pos
        if (curTok toks pos1).type = TokenType.RPAREN then
          .ok (.functionCall t.line t.col left [], nextPos toks pos1)
        else
          match rec.exprFn toks pos1 PREC_NONE with
          | .error e => .error e
          | .ok (a, pos2) =>
              match rec.commaFn toks pos2 [a] with
              | .error e => .error e
              | .ok (args, pos3) =>
                  match consumeTok toks pos3 .RPAREN "Expected ')' after arguments" with
                  | .error e => .error e
                  | .ok (_, pos4) => .ok (.functionCall t.line t.col left args, pos4)
      else if t.type = TokenType.LBRACKET then
        match rec.exprFn toks (nextPos toks pos) PREC_NONE with
        | .error e => .error e
        | .ok (index, pos1) =>
            match consumeTok toks pos1 .RBRACKET "Expected ']' after index" with
            | .error e => .error e
            | .ok (_, pos2) => .ok (.indexAccess t.line t.col left index, pos2)
      else
        match rec.exprFn toks (nextPos toks pos) prec with
        | .error e => .error e
        | .ok (right, pos1) => .ok (.binaryOp t.line t.col left t.lexeme right, pos1)
  /- The comma loops shared by argument lists and list literals: while the
  current token is a comma, consume it and parse another expression. -/
  commaFn toks pos acc :=
      if (curTok toks pos).type = TokenType.COMMA then
        match rec.exprFn toks (nextPos toks pos) PREC_NONE with
        | .error e => .error e
        | .ok (e, pos1) => rec.commaFn toks pos1 (acc ++ [e])
      else .ok (acc, pos)
  /- Parser._parse_list_literal. -/
  listLitFn toks pos :=
      match consumeTok toks pos .LBRACKET "Expected '['" with
      | .error e => .error e
      | .ok (t, pos1) =>
          if (curTok toks pos1).type = TokenType.RBRACKET then
            .ok (.listLiteral t.line t.col [], nextPos toks pos1)
          else
            match rec.exprFn toks pos1 PREC_NONE with
            | .error e => .error e
            | .ok (a, pos2) =>
                match rec.commaFn toks pos2 [a] with
                | .error e => .error e
                | .ok (elements, pos3) =>
                    match consumeTok toks pos3 .RBRACKET "Expected ']' after list elements" with
                    | .error e => .error e
                    | .ok (_, pos4) => .ok (.listLiteral t.line t.col elements, pos4)

/-- The expression parser at a given fuel level: each unit of fuel allows
one more call between the mutually recursive methods. -/
def parserAt : ℕ → ParserFns
  | 0 => parserStop
  | n + 1 => parserStep (parserAt n)

/-- Fuel that covers any expression parse over the given stream: each
parser step consumes a token or recurses into a shorter suffix, so the
call depth is bounded by a small multiple of the stream length. -/
def parserFuel (toks : List Token) : ℕ := toks.length * 8 + 64

/-- Parse one expression starting at the head of the token stream
(Parser._parse_expression with the default minimum precedence). -/
def parseExpression (toks : List Token) : Except Exc (ASTNode × ℕ) :=
  (parserAt (parserFuel toks)).exprFn toks 0 PREC_NONE

/-- One scope record (environment.py, class Environment): a mapping of
names to values and an optional parent reference (a heap index). -/
structure EnvRec where
  values : List (String × Value)
  parent : Option ℕ

/-- Lookup in one scope: Python dict indexing (keys are unique because
assocSet updates in place). -/
def assocGet : List (String × Value) → String → Option Value
  | [], _ => none
  | (k, v) :: rest, n => if k = n then some v else assocGet rest n

/-- Binding in one scope: Python dict assignment (replace the existing
entry, else append a new one). -/
def assocSet : List (String × Value) → String → Value → List (String × Value)
  | [], n, v => [(n, v)]
  | (k, w) :: rest, n, v =>
      if k = n then (n, v) :: rest else (k, w) :: assocSet rest n v

/-- Replace the environment record at index i (in-place mutation of one
Environment object in the heap model). -/
def heapUpdate (heap : List EnvRec) (i : ℕ) (f : EnvRec → EnvRec) : List EnvRec :=
  match heap.get? i with
  | some r => heap.set i (f r)
  | none => heap

/-- Environment.define: bind in the current scope only. -/
def envDefine (heap : List EnvRec) (i : ℕ) (name : String) (v : Value) : List EnvRec :=
  heapUpdate heap i (fun r => ⟨assocSet r.values name v, r.parent⟩)

/-- Environment.get, walking the parent chain.  The fuel bounds the chain
walk (the interpreter only builds chains whose parent indices strictly
decrease, so heap.length + 1 fuel always suffices); none stands for the
KeyError Python raises when no scope binds the name. -/
def envGetFuel : ℕ → List EnvRec → ℕ → String → Option Value
  | 0, _, _, _ => none
  | fuel + 1, heap, i, name =>
      match heap.get? i with
      | none => none
      | some r =>
          match assocGet r.values name with
          | some v => some v
          | none =>
              match r.parent with
              | some p => envGetFuel fuel heap p name
              | none => none

/-- Environment.get with the canonical fuel bound. -/
def envGet (heap : List EnvRec) (i : ℕ) (name : String) : Option Value :=
  envGetFuel (heap.length + 1) heap i name

/-- Environment.has, walking the parent chain. -/
def envHasFuel : ℕ → List EnvRec → ℕ → String → Bool
  | 0, _, _, _ => false
  | fuel + 1, heap, i, name =>
      match heap.get? i with
      | none => false
      | some r =>
          if (assocGet r.values name).isSome then true
          else
            match r.parent with
            | some p => envHasFuel fuel heap p name
            | none => false

/-- Environment.has with the canonical fuel bound. -/
def envHas (heap : List EnvRec) (i : ℕ) (name : String) : Bool :=
  envHasFuel (heap.length + 1) heap i name

/-- Environment.set: mutate the nearest scope already containing the
name; none stands for the KeyError when no scope contains it (set never
creates a binding). -/
def envSetFuel : ℕ → List EnvRec → ℕ → String → Value → Option (List EnvRec)
  | 0, _, _, _, _ => none
  | fuel + 1, heap, i, name, v =>
      match heap.get? i with
      | none => none
      | some r =>
          if (assocGet r.values name).isSome then
            some (heap.set i ⟨assocSet r.values name v, r.parent⟩)
          else
            match r.parent with
            | some p => envSetFuel fuel heap p name v
            | none => none

/-- Environment.set with the canonical fuel bound, total: on the KeyError
path (unreachable under the has-guard of _exec_let) the heap is returned
unchanged. -/
def envSetD (heap : List EnvRec) (i : ℕ) (name : String) (v : Value) : List EnvRec :=
  (envSetFuel (heap.length + 1) heap i name v).getD heap

/-- Interpreter state: the environment heap, the list heap, the
call-depth counter (a Python int, hence an integer: the finally-clauses
of _eval_call can drive it negative), the lines printed so far and the
remaining stdin lines (the model of the input() source). -/
structure IState where
  envs : List EnvRec
  lists : List (List Value)
  callDepth : ℤ
  output : List String
  inputs : List String

/-- Outcome of one evaluation step: a value with the updated state, or an
exception (error, return signal or fuel exhaustion) with the state at the
point it was raised. -/
inductive Res (α : Type) where
  | ok (a : α) (s : IState)
  | exc (e : Exc) (s : IState)

/-- Interpreter._is_truthy: nil and false are falsy, everything else is
truthy. -/
def isTruthy : Value → Bool
  | .nil => false
  | .bool b => b
  | _ => true

/-- Interpreter._type_name and builtins._type_name (they implement the
same mapping): the Ember type name of a value.  The "unknown" fallback of
the source is unreachable for the values this model builds. -/
def typeName : Value → String
  | .nil => "nil"
  | .bool _ => "bool"
  | .num _ => "number"
  | .str _ => "string"
  | .listRef _ => "list"
  | .fn _ => "function"
  | .builtin _ => "function"

/-- Python type(x).__name__ for an Ember value (used by the error
messages of _exec_index_assign and _eval_unary). -/
def pyTypeName : Value → String
  | .nil => "NoneType"
  | .bool _ => "bool"
  | .num _ => "float"
  | .str _ => "str"
  | .listRef _ => "list"
  | .fn _ => "EmberFunction"
  | .builtin _ => "EmberBuiltin"

/-- Python type(node).__name__ for an AST node (used by the unknown
statement and unknown expression error messages). -/
def astClassName : ASTNode → String
  | .numberLiteral .. => "NumberLiteral"
  | .stringLiteral .. => "StringLiteral"
  | .boolLiteral .. => "BoolLiteral"
  | .nilLiteral .. => "NilLiteral"
  | .listLiteral .. => "ListLiteral"
  | .identifier .. => "Identifier"
  | .unaryOp .. => "UnaryOp"
  | .binaryOp .. => "BinaryOp"
  | .functionCall .. => "FunctionCall"
  | .indexAccess .. => "IndexAccess"
  | .letStatement .. => "LetStatement"
  | .indexAssignment .. => "IndexAssignment"
  | .ifStatement .. => "IfStatement"
  | .whileStatement .. => "WhileStatement"
  | .functionDef .. => "FunctionDef"
  | .returnStatement .. => "ReturnStatement"
  | .expressionStatement .. => "ExpressionStatement"
  | .program .. => "Program"

/-- The line field every AST node carries. -/
def ASTNode.mLine : ASTNode → ℤ
  | .numberLiteral l _ _ | .stringLiteral l _ _ | .boolLiteral l _ _
  | .nilLiteral l _ | .listLiteral l _ _ | .identifier l _ _
  | .unaryOp l _ _ _ | .binaryOp l _ _ _ _ | .functionCall l _ _ _
  | .indexAccess l _ _ _ | .letStatement l _ _ _ | .indexAssignment l _ _ _ _
  | .ifStatement l _ _ _ _ _ | .whileStatement l _ _ _
  | .functionDef l _ _ _ _ | .returnStatement l _ _
  | .expressionStatement l _ _ | .program l _ _ => l

/-- The column field every AST node carries. -/
def ASTNode.mCol : ASTNode → ℤ
  | .numberLiteral _ c _ | .stringLiteral _ c _ | .boolLiteral _ c _
  | .nilLiteral _ c | .listLiteral _ c _ | .identifier _ c _
  | .unaryOp _ c _ _ | .binaryOp _ c _ _ _ | .functionCall _ c _ _
  | .indexAccess _ c _ _ | .letStatement _ c _ _ | .indexAssignment _ c _ _ _
  | .ifStatement _ c _ _ _ _ | .whileStatement _ c _ _
  | .functionDef _ c _ _ _ | .returnStatement _ c _
  | .expressionStatement _ c _ | .program _ c _ => c

/-- The decimal digit character for a value below ten. -/
def digitChar (n : ℕ) : Char := Char.ofNat (48 + n)

/-- Decimal digits of a natural number, most significant first (the
rendering Python str() gives an int).  The fuel n + 1 always suffices. -/
def natStrAux : ℕ → ℕ → List Char → List Char
  | 0, _, acc => acc
  | fuel + 1, n, acc =>
      if n < 10 then digitChar n :: acc
      else natStrAux fuel (n / 10) (digitChar (n % 10) :: acc)

/-- Python str() of a natural number. -/
def natStr (n : ℕ) : String := String.mk (natStrAux (n + 1) n [])

/-- Python str() of an int. -/
def intStr (i : ℤ) : String :=
  if i < 0 then "-" ++ natStr i.natAbs else natStr i.natAbs

/-- Fractional decimal digits of a rational in [0, 1) by repeated
multiplication by ten, stopping at zero (the shortest exact expansion).
For every value a Python float can take the expansion is finite and the
q.den fuel bound suffices; str() of a float is modelled exactly on its
plain-decimal regime (no exponent notation). -/
def fracDigitsAux : ℕ → ℚ → List Char
  | 0, _ => []
  | fuel + 1, f =>
      if f = 0 then []
      else
        let f10 := f * 10
        let d := (⌊f10⌋).toNat
        digitChar d :: fracDigitsAux fuel (f10 - ⌊f10⌋)

/-- The number branch of builtins._format_value: integer rendering when
the value equals its int() truncation, else the plain decimal rendering
of str() on a float. -/
def formatNumber (q : ℚ) : String :=
  if q = (pyInt q : ℚ) then intStr (pyInt q)
  else
    (if q < 0 then "-" else "") ++ natStr (⌊|q|⌋).toNat ++ "." ++
      String.mk (fracDigitsAux (|q|).den (|q| - ⌊|q|⌋))

/-- Read a list from the list heap (never dangling for the references the
interpreter builds). -/
def getList (lists : List (List Value)) (r : ℕ) : List Value :=
  (lists.get? r).getD []

/-- Nesting depth bound for value formatting and comparison: on an
acyclic heap no reference chain is longer than the heap. -/
def heapDepth (lists : List (List Value)) : ℕ := lists.length + 1

/-- The builtins._format_value display rendering.  The fuel bounds
recursion into nested lists (Python would recurse without bound on the
cyclic lists append can create; no claim touches that case). -/
def formatValueFuel : ℕ → List (List Value) → Value → String
  | 0, _, _ => ""
  | fuel + 1, lists, v =>
      match v with
      | .nil => "nil"
      | .bool b => if b then "true" else "false"
      | .num q => formatNumber q
      | .str s => s
      | .listRef r =>
          "[" ++ String.intercalate ", "
            ((getList lists r).map (formatValueFuel fuel lists)) ++ "]"
      | .fn f => "<fn " ++ f.name ++ ">"
      | .builtin b =>
          "<builtin " ++
            (match b with
             | .printB => "print" | .lenB => "len" | .appendB => "append"
             | .typeB => "type" | .strB => "str" | .numB => "num"
             | .inputB => "input") ++ ">"

/-- The builtins._format_value display rendering at the canonical fuel. -/
def formatValue (lists : List (List Value)) (v : Value) : String :=
  formatValueFuel (heapDepth lists) lists v

/-- Python == on Ember runtime values.  Scalars compare as CPython
compares them: None only to None, numbers and booleans numerically (True
counts as 1 and False as 0), strings by content; values of other kind
pairs are unequal.  Lists compare by length and elementwise ==, with the
CPython identity shortcut on the references; EmberFunction is a dataclass
(fieldwise equality), EmberBuiltin compares by identity.  The fuel only
bounds recursion into nested lists. -/
def pyEq (lists : List (List Value)) : ℕ → Value → Value → Bool
  | _, .nil, .nil => true
  | _, .bool x, .bool y => x == y
  | _, .bool x, .num q => (if x then (1 : ℚ) else 0) == q
  | _, .num q, .bool y => q == (if y then (1 : ℚ) else 0)
  | _, .num a, .num b => a == b
  | _, .str a, .str b => a == b
  | fuel + 1, .listRef r1, .listRef r2 =>
      r1 == r2 ||
        (let l1 := getList lists r1
         let l2 := getList lists r2
         l1.length == l2.length &&
           (List.zip l1 l2).all (fun p => pyEq lists fuel p.1 p.2))
  | 0, .listRef _, .listRef _ => false
  | _, .fn f, .fn g => fnBeq f g
  | _, .builtin a, .builtin b => a == b
  | _, _, _ => false

/-- Interpreter._ember_equal: Nil equals only Nil, otherwise Python ==. -/
def emberEqual (lists : List (List Value)) (a b : Value) : Bool :=
  match a, b with
  | .nil, .nil => true
  | .nil, _ => false
  | _, .nil => false
  | _, _ => pyEq lists (heapDepth lists) a b

/-- Interpreter._eval_numeric_binary: arithmetic and comparison on two
numbers, with the division-by-zero and modulo-by-zero runtime errors.
The unknown-operator fallback mirrors the source. -/
def evalNumericBinary (op : String) (l r : ℚ) (line col : ℤ) :
    Except EmberError Value :=
  if op = "+" then .ok (.num (l + r))
  else if op = "-" then .ok (.num (l - r))
  else if op = "*" then .ok (.num (l * r))
  else if op = "/" then
    if r = 0 then .error ⟨.runtimeErr, "Division by zero", line, col⟩
    else .ok (.num (l / r))
  else if op = "%" then
    if r = 0 then .error ⟨.runtimeErr, "Modulo by zero", line, col⟩
    else .ok (.num (pyMod l r))
  else if op = "<" then .ok (.bool (decide (l < r)))
  else if op = ">" then .ok (.bool (decide (l > r)))
  else if op = "<=" then .ok (.bool (decide (l ≤ r)))
  else if op = ">=" then .ok (.bool (decide (l ≥ r)))
  else .error ⟨.runtimeErr, "Unknown operator '" ++ op ++ "'", line, col⟩

/-- Interpreter._eval_index, after both subexpressions are evaluated:
integer indexing into lists and strings (with int() truncation of the
numeric index), with the same error policy as the source. -/
def evalIndexCore (lists : List (List Value)) (obj index : Value) (line col : ℤ) :
    Except EmberError Value :=
  match obj with
  | .listRef r =>
      match index with
      | .num q =>
          let idx := pyInt q
          let l := getList lists r
          if idx < 0 ∨ idx ≥ l.length then
            .error ⟨.runtimeErr, "Index " ++ intStr idx ++
              " out of range for list of length " ++ natStr l.length, line, col⟩
          else .ok ((l.get? idx.toNat).getD .nil)
      | _ => .error ⟨.typeErr, "List index must be a number", line, col⟩
  | .str s =>
      match index with
      | .num q =>
          let idx := pyInt q
          if idx < 0 ∨ idx ≥ s.length then
            .error ⟨.runtimeErr, "Index " ++ intStr idx ++
              " out of range for string of length " ++ natStr s.length, line, col⟩
          else .ok (.str (String.mk [(s.toList.get? idx.toNat).getD ' ']))
      | _ => .error ⟨.typeErr, "String index must be a number", line, col⟩
  | _ =>
      .error ⟨.typeErr, "Cannot index into " ++ formatValue lists obj ++
        " (type " ++ typeName obj ++ ")", line, col⟩

/-- Interpreter._exec_index_assign, after the object, index and value
subexpressions are evaluated: the target must be a list (note the error
here names the Python type), the index a number; int() truncates the
index, the truncation must lie in range, and the element is overwritten
in place. -/
def indexAssignCore (obj index value : Value) (line col : ℤ) (s : IState) : Res Unit :=
  match obj with
  | .listRef r =>
      match index with
      | .num q =>
          let idx := pyInt q
          let l := getList s.lists r
          if idx < 0 ∨ idx ≥ l.length then
            .exc (.err ⟨.runtimeErr, "Index " ++ intStr idx ++
              " out of range for list of length " ++ natStr l.length, line, col⟩) s
          else
            .ok () { s with lists := s.lists.set r (l.set idx.toNat value) }
      | _ => .exc (.err ⟨.typeErr, "List index must be a number", line, col⟩) s
  | _ =>
      .exc (.err ⟨.typeErr, "Cannot index into " ++ formatValue s.lists obj ++
        " (type " ++ pyTypeName obj ++ ")", line, col⟩) s

/-- Declared arity of each builtin (builtins.py register_builtins); -1
means variadic. -/
def arity : BName → ℤ
  | .printB => -1
  | .lenB => 1
  | .appendB => 2
  | .typeB => 1
  | .strB => 1
  | .numB => 1
  | .inputB => -1

/-- Name under which each builtin is registered. -/
def bnameStr : BName → String
  | .printB => "print"
  | .lenB => "len"
  | .appendB => "append"
  | .typeB => "type"
  | .strB => "str"
  | .numB => "num"
  | .inputB => "input"

/-- Modelled approximation of Python float() on a string: an optional
sign followed by plain decimal digits with an optional fractional part.
Exponents, inf, nan and surrounding whitespace are not modelled; no
claim depends on them. -/
def parsePyFloat (s : String) : Option ℚ :=
  let core : List Char → Option ℚ := fun cs =>
    let (ip, r1) := takeDigits cs
    match r1 with
    | [] => if ip.isEmpty then none else some (decodeNum ip [])
    | '.' :: r2 =>
        let (fp, r3) := takeDigits r2
        if r3.isEmpty && !(ip.isEmpty && fp.isEmpty) then some (decodeNum ip fp)
        else none
    | _ => none
  match s.toList with
  | '-' :: cs => (core cs).map (fun q => -q)
  | '+' :: cs => core cs
  | cs => core cs

/-- The builtin implementations of builtins.py, dispatched after the
arity check of _eval_call.  print writes one space-joined line to the
output sink; append mutates the list heap in place; input consumes one
line of the modelled stdin (CPython raises EOFError, which is not an
EmberError, when stdin is exhausted). -/
def callBuiltin (b : BName) (args : List Value) (line col : ℤ) (s : IState) : Res Value :=
  match b with
  | .printB =>
      .ok .nil { s with output :=
        s.output ++ [String.intercalate " " (args.map (formatValue s.lists))] }
  | .lenB =>
      match args.get? 0 with
      | some (.str t) => .ok (.num t.length) s
      | some (.listRef r) => .ok (.num (getList s.lists r).length) s
      | some v =>
          .exc (.err ⟨.runtimeErr,
            "len() expects a string or list, got " ++ typeName v, line, col⟩) s
      | none => .exc .fuelOut s
  | .appendB =>
      match args.get? 0, args.get? 1 with
      | some (.listRef r), some v =>
          .ok .nil { s with lists := s.lists.set r (getList s.lists r ++ [v]) }
      | some v, some _ =>
          .exc (.err ⟨.runtimeErr,
            "append() expects a list as first argument, got " ++ typeName v,
            line, col⟩) s
      | _, _ => .exc .fuelOut s
  | .typeB =>
      match args.get? 0 with
      | some v => .ok (.str (typeName v)) s
      | none => .exc .fuelOut s
  | .strB =>
      match args.get? 0 with
      | some v => .ok (.str (formatValue s.lists v)) s
      | none => .exc .fuelOut s
  | .numB =>
      match args.get? 0 with
      | some (.num q) => .ok (.num q) s
      | some (.bool x) => .ok (.num (if x then 1 else 0)) s
      | some (.str t) =>
          match parsePyFloat t with
          | some q => .ok (.num q) s
          | none =>
              .exc (.err ⟨.runtimeErr, "num() cannot convert '" ++
                formatValue s.lists (.str t) ++ "' to a number", line, col⟩) s
      | some v =>
          .exc (.err ⟨.runtimeErr, "num() cannot convert '" ++
            formatValue s.lists v ++ "' to a number", line, col⟩) s
      | none => .exc .fuelOut s
  | .inputB =>
      match s.inputs with
      | l :: rest => .ok (.str l) { s with inputs := rest }
      | [] => .exc (.err ⟨.runtimeErr, "EOFError", line, col⟩) s

/-- The maximum user-function call depth (interpreter.py
MAX_CALL_DEPTH). -/
def MAX_CALL_DEPTH : ℕ := 1000

/-- The mutually recursive evaluation methods of interpreter.py, as a
record of functions tied below by the fuel-indexed fixpoint interpAt so
that every definition reduces definitionally. -/
structure InterpFns where
  evalFn : ASTNode → ℕ → IState → Res Value
  evalListFn : List ASTNode → ℕ → IState → Res (List Value)
  execFn : ASTNode → ℕ → IState → Res Unit
  execListFn : List ASTNode → ℕ → IState → Res Unit
  execBlockFn : List ASTNode → ℕ → IState → Res Unit
  elifFn : List (ASTNode × List ASTNode) → Option (List ASTNode) → ℕ → IState → Res Unit
  whileFn : ASTNode → List ASTNode → ℕ → IState → Res Unit
  callFn : Value → List Value → ℤ → ℤ → IState → Res Value

/-- The zero-fuel interpreter: every entry point reports fuel
exhaustion. -/
def interpStop : InterpFns :=
  ⟨fun _ _ s => .exc .fuelOut s, fun _ _ s => .exc .fuelOut s,
   fun _ _ s => .exc .fuelOut s, fun _ _ s => .exc .fuelOut s,
   fun _ _ s => .exc .fuelOut s, fun _ _ _ s => .exc .fuelOut s,
   fun _ _ _ s => .exc .fuelOut s, fun _ _ _ _ s => .exc .fuelOut s⟩

/-- One layer of the interpreter: each method of interpreter.py written
against the previous fuel layer rec. -/
def interpStep (rec : InterpFns) : InterpFns where
  /- Interpreter._eval. -/
  evalFn e env s :=
    match e with
    | .numberLiteral _ _ v => .ok (.num v) s
    | .stringLiteral _ _ v => .ok (.str v) s
    | .boolLiteral _ _ b => .ok (.bool b) s
    | .nilLiteral _ _ => .ok .nil s
    | .listLiteral _ _ elems =>
        match rec.evalListFn elems env s with
        | .exc e1 s1 => .exc e1 s1
        | .ok vs s1 => .ok (.listRef s1.lists.length) { s1 with lists := s1.lists ++ [vs] }
    | .identifier line col name =>
        match envGet s.envs env name with
        | some v => .ok v s
        | none =>
            .exc (.err ⟨.runtimeErr, "Undefined variable '" ++ name ++ "'",
              line, col⟩) s
    | .unaryOp line col op operand =>
        match rec.evalFn operand env s with
        | .exc e1 s1 => .exc e1 s1
        | .ok v s1 =>
            if op = "-" then
              match v with
              | .num q => .ok (.num (-q)) s1
              | _ =>
                  .exc (.err ⟨.typeErr, "Cannot negate " ++ formatValue s1.lists v ++
                    " (type " ++ pyTypeName v ++ ")", line, col⟩) s1
            else if op = "not" then .ok (.bool (!isTruthy v)) s1
            else
              .exc (.err ⟨.runtimeErr, "Unknown unary operator '" ++ op ++ "'",
                line, col⟩) s1
    | .binaryOp line col l op r =>
        /- Interpreter._eval_binary.  The and/or operators short-circuit:
        the right operand is only evaluated when needed, and the raw
        operand value is returned uncoerced. -/
        if op = "and" then
          match rec.evalFn l env s with
          | .exc e1 s1 => .exc e1 s1
          | .ok lv s1 => if !isTruthy lv then .ok lv s1 else rec.evalFn r env s1
        else if op = "or" then
          match rec.evalFn l env s with
          | .exc e1 s1 => .exc e1 s1
          | .ok lv s1 => if isTruthy lv then .ok lv s1 else rec.evalFn r env s1
        else
          match rec.evalFn l env s with
          | .exc e1 s1 => .exc e1 s1
          | .ok lv s1 =>
              match rec.evalFn r env s1 with
              | .exc e2 s2 => .exc e2 s2
              | .ok rv s2 =>
                  if op = "==" then .ok (.bool (emberEqual s2.lists lv rv)) s2
                  else if op = "!=" then .ok (.bool (!emberEqual s2.lists lv rv)) s2
                  else
                    match lv, rv with
                    | .str a, .str b =>
                        if op = "+" then .ok (.str (a ++ b)) s2
                        else
                          .exc (.err ⟨.typeErr, "Cannot apply '" ++ op ++ "' to " ++
                            formatValue s2.lists lv ++ " (" ++ typeName lv ++ ") and " ++
                            formatValue s2.lists rv ++ " (" ++ typeName rv ++ ")",
                            line, col⟩) s2
                    | .num a, .num b =>
                        match evalNumericBinary op a b line col with
                        | .ok v => .ok v s2
                        | .error e1 => .exc (.err e1) s2
                    | _, _ =>
                        .exc (.err ⟨.typeErr, "Cannot apply '" ++ op ++ "' to " ++
                          formatValue s2.lists lv ++ " (" ++ typeName lv ++ ") and " ++
                          formatValue s2.lists rv ++ " (" ++ typeName rv ++ ")",
                          line, col⟩) s2
    | .functionCall line col callee args =>
        match rec.evalFn callee env s with
        | .exc e1 s1 => .exc e1 s1
        | .ok cv s1 =>
            match rec.evalListFn args env s1 with
            | .exc e2 s2 => .exc e2 s2
            | .ok avs s2 => rec.callFn cv avs line col s2
    | .indexAccess line col obj index =>
        match rec.evalFn obj env s with
        | .exc e1 s1 => .exc e1 s1
        | .ok ov s1 =>
            match rec.evalFn index env s1 with
            | .exc e2 s2 => .exc e2 s2
            | .ok iv s2 =>
                match evalIndexCore s2.lists ov iv line col with
                | .ok v => .ok v s2
                | .error e3 => .exc (.err e3) s2
    | other =>
        .exc (.err ⟨.runtimeErr,
          "Unknown expression type: " ++ astClassName other,
          other.mLine, other.mCol⟩) s
  /- The list comprehensions evaluating subexpressions in order
  (ListLiteral elements and call arguments). -/
  evalListFn es env s :=
    match es with
    | [] => .ok [] s
    | e :: rest =>
        match rec.evalFn e env s with
        | .exc e1 s1 => .exc e1 s1
        | .ok v s1 =>
            match rec.evalListFn rest env s1 with
            | .exc e2 s2 => .exc e2 s2
            | .ok vs s2 => .ok (v :: vs) s2
  /- Interpreter._exec_stmt. -/
  execFn st env s :=
    match st with
    | .letStatement _ _ name valueE =>
        match rec.evalFn valueE env s with
        | .exc e1 s1 => .exc e1 s1
        | .ok v s1 =>
            if envHas s1.envs env name then
              .ok () { s1 with envs := envSetD s1.envs env name v }
            else
              .ok () { s1 with envs := envDefine s1.envs env name v }
    | .indexAssignment line col objE indexE valueE =>
        match rec.evalFn objE env s with
        | .exc e1 s1 => .exc e1 s1
        | .ok ov s1 =>
            match rec.evalFn indexE env s1 with
            | .exc e2 s2 => .exc e2 s2
            | .ok iv s2 =>
                match rec.evalFn valueE env s2 with
                | .exc e3 s3 => .exc e3 s3
                | .ok vv s3 => indexAssignCore ov iv vv line col s3
    | .ifStatement _ _ cond thenB elifs elseB =>
        match rec.evalFn cond env s with
        | .exc e1 s1 => .exc e1 s1
        | .ok cv s1 =>
            if isTruthy cv then rec.execBlockFn thenB env s1
            else rec.elifFn elifs elseB env s1
    | .whileStatement _ _ cond body => rec.whileFn cond body env s
    | .functionDef _ _ name params body =>
        .ok () { s with envs := envDefine s.envs env name (Value.fn ⟨name, params, body, env⟩) }
    | .returnStatement _ _ valueE =>
        match valueE with
        | none => .exc (.ret .nil) s
        | some e1 =>
            match rec.evalFn e1 env s with
            | .exc e2 s1 => .exc e2 s1
            | .ok v s1 => .exc (.ret v) s1
    | .expressionStatement _ _ e1 =>
        match rec.evalFn e1 env s with
        | .exc e2 s1 => .exc e2 s1
        | .ok _ s1 => .ok () s1
    | other =>
        .exc (.err ⟨.runtimeErr,
          "Unknown statement type: " ++ astClassName other,
          other.mLine, other.mCol⟩) s
  /- The statement loops of execute and of function bodies. -/
  execListFn sts env s :=
    match sts with
    | [] => .ok () s
    | st :: rest =>
        match rec.execFn st env s with
        | .exc e1 s1 => .exc e1 s1
        | .ok _ s1 => rec.execListFn rest env s1
  /- Interpreter._exec_block: a fresh child environment per entry. -/
  execBlockFn sts env s :=
    rec.execListFn sts s.envs.length { s with envs := s.envs ++ [⟨[], some env⟩] }
  /- The elif chain of Interpreter._exec_if: first truthy condition wins,
  else the optional else body runs. -/
  elifFn clauses elseB env s :=
    match clauses with
    | [] =>
        match elseB with
        | some b => rec.execBlockFn b env s
        | none => .ok () s
    | (c, b) :: rest =>
        match rec.evalFn c env s with
        | .exc e1 s1 => .exc e1 s1
        | .ok cv s1 =>
            if isTruthy cv then rec.execBlockFn b env s1
            else rec.elifFn rest elseB env s1
  /- Interpreter._exec_while: re-evaluate the condition before each
  iteration; each iteration body runs in a fresh child scope. -/
  whileFn cond body env s :=
    match rec.evalFn cond env s with
    | .exc e1 s1 => .exc e1 s1
    | .ok cv s1 =>
        if isTruthy cv then
          match rec.execBlockFn body env s1 with
          | .exc e2 s2 => .exc e2 s2
          | .ok _ s2 => rec.whileFn cond body env s2
        else .ok () s1
  /- Interpreter._eval_call after callee and arguments are evaluated:
  builtin dispatch, arity checks, the call-depth guard (which resets the
  counter to zero when it trips), frame creation with positional
  parameter binding, the ReturnSignal handler, and the finally clause
  that decrements the counter on every exit path that entered the try
  block. -/
  callFn callee args line col s :=
    match callee with
    | .builtin b =>
        if arity b ≠ -1 ∧ (args.length : ℤ) ≠ arity b then
          .exc (.err ⟨.runtimeErr, bnameStr b ++ "() expects " ++
            intStr (arity b) ++ " argument(s), got " ++ natStr args.length,
            line, col⟩) s
        else callBuiltin b args line col s
    | .fn f =>
        if args.length ≠ f.params.length then
          .exc (.err ⟨.runtimeErr, f.name ++ "() expects " ++
            natStr f.params.length ++ " argument(s), got " ++ natStr args.length,
            line, col⟩) s
        else
          let s1 : IState := { s with callDepth := s.callDepth + 1 }
          if s1.callDepth > (MAX_CALL_DEPTH : ℤ) then
            .exc (.err ⟨.runtimeErr, "Maximum recursion depth exceeded (" ++
              natStr MAX_CALL_DEPTH ++ ")", line, col⟩)
              { s1 with callDepth := 0 }
          else
            let callEnv := s1.envs.length
            let s2 : IState :=
              { s1 with envs := s1.envs ++ [⟨List.zip f.params args, some f.closure⟩] }
            match rec.execListFn f.body callEnv s2 with
            | .ok _ s3 => .ok .nil { s3 with callDepth := s3.callDepth - 1 }
            | .exc (.ret v) s3 => .ok v { s3 with callDepth := s3.callDepth - 1 }
            | .exc e1 s3 => .exc e1 { s3 with callDepth := s3.callDepth - 1 }
    | _ =>
        .exc (.err ⟨.runtimeErr, "Cannot call " ++ formatValue s.lists callee ++
          " (type " ++ typeName callee ++ ")", line, col⟩) s

/-- The interpreter at a given fuel level: each unit of fuel allows one
more call between the mutually recursive methods. -/
def interpAt : ℕ → InterpFns
  | 0 => interpStop
  | n + 1 => interpStep (interpAt n)

/-- The global environment a fresh Interpreter starts with: the builtin
registry installed by register_builtins, in registration order. -/
def builtinEnv : EnvRec :=
  ⟨[("print", .builtin .printB), ("len", .builtin .lenB),
    ("append", .builtin .appendB), ("type", .builtin .typeB),
    ("str", .builtin .strB), ("num", .builtin .numB),
    ("input", .builtin .inputB)], none⟩

/-- The state of a fresh Interpreter (globals at heap index 0, empty list
heap, call depth zero, no output yet) with the given stdin model. -/
def initStateWith (inputs : List String) : IState :=
  ⟨[builtinEnv], [], 0, [], inputs⟩

/-- The state of a fresh Interpreter with no stdin. -/
def initState : IState := initStateWith []

/-- Interpreter.execute on the statement list of a Program node: run each
top-level statement in the global environment, stopping at the first
exception, which propagates to the caller unmodified (including a
ReturnSignal raised outside any call). -/
def executeStmts (fuel : ℕ) (stmts : List ASTNode) (s : IState) : Res Unit :=
  (interpAt fuel).execListFn stmts 0 s

/-- Interpreter.execute on a Program node. -/
def executeProgram (fuel : ℕ) (p : ASTNode) (s : IState) : Res Unit :=
  match p with
  | .program _ _ stmts => executeStmts fuel stmts s
  | _ => executeStmts fuel [] s

/-- The state an evaluation step left behind. -/
def Res.state {α : Type} : Res α → IState
  | .ok _ s => s
  | .exc _ s => s

/-- Whether an evaluation step completed without an exception. -/
def Res.isOk {α : Type} : Res α → Bool
  | .ok _ _ => true
  | .exc _ _ => false

/-- The exception an evaluation step raised, if any. -/
def Res.excOf {α : Type} : Res α → Option Exc
  | .ok _ _ => none
  | .exc e _ => some e

/-- The kind tag of a runtime value (for stating which pairs of kinds the
equality operators relate). -/
inductive VKind where
  | nilK | boolK | numK | strK | listK | fnK | builtinK
deriving DecidableEq

/-- The kind of a value. -/
def vkind : Value → VKind
  | .nil => .nilK
  | .bool _ => .boolK
  | .num _ => .numK
  | .str _ => .strK
  | .listRef _ => .listK
  | .fn _ => .fnK
  | .builtin _ => .builtinK

/-- A Number paired with a Bool, in either order: the one cross-kind pair
Python == relates numerically. -/
def numBoolPair (a b : Value) : Prop :=
  (vkind a = .numK ∧ vkind b = .boolK) ∨ (vkind a = .boolK ∧ vkind b = .numK)

/-- Boolean equality agrees with decidable equality on lawful types. -/
theorem beq_decide {α : Type} [DecidableEq α] [BEq α] [LawfulBEq α] (a b : α) :
    (a == b) = decide (a = b) := by
  by_cases h : a = b <;> simp [h]

/-- Claim C1 (amended): for the == and != operators, Nil equals only Nil;
same-kind scalars compare by value (numbers numerically, strings by
content, booleans by value); a Number and a Bool compare numerically with
true as 1 and false as 0; every other pair of values of different kinds
is unequal under ==, and != is the negation. -/
theorem c1_equality_semantics :
    (∀ lists, emberEqual lists .nil .nil = true)
  ∧ (∀ lists v, vkind v ≠ .nilK →
      emberEqual lists .nil v = false ∧ emberEqual lists v .nil = false)
  ∧ (∀ lists (a b : ℚ), emberEqual lists (.num a) (.num b) = decide (a = b))
  ∧ (∀ lists (a b : String), emberEqual lists (.str a) (.str b) = decide (a = b))
  ∧ (∀ lists (a b : Bool), emberEqual lists (.bool a) (.bool b) = decide (a = b))
  ∧ (∀ lists (q : ℚ) (x : Bool),
      emberEqual lists (.num q) (.bool x) = decide (q = if x then 1 else 0)
    ∧ emberEqual lists (.bool x) (.num q) = decide ((if x then (1 : ℚ) else 0) = q))
  ∧ (∀ lists a b, vkind a ≠ vkind b → ¬ numBoolPair a b →
      emberEqual lists a b = false)
  ∧ (∀ (n : ℕ) (li co : ℤ) (l r : ASTNode) (env : ℕ) (s : IState)
      (lv rv : Value) (s1 s2 : IState),
      (interpAt n).evalFn l env s = .ok lv s1 →
      (interpAt n).evalFn r env s1 = .ok rv s2 →
      (interpAt (n + 1)).evalFn (.binaryOp li co l "==" r) env s
        = .ok (.bool (emberEqual s2.lists lv rv)) s2
    ∧ (interpAt (n + 1)).evalFn (.binaryOp li co l "!=" r) env s
        = .ok (.bool (!emberEqual s2.lists lv rv)) s2) := by
  refine ⟨fun lists => rfl, ?_, ?_, ?_, ?_, ?_, ?_, ?_⟩
  · intro lists v hv
    cases v <;> simp_all [vkind, emberEqual]
  · intro lists a b
    simp [emberEqual, pyEq, heapDepth, beq_decide]
  · intro lists a b
    simp [emberEqual, pyEq, heapDepth, beq_decide]
  · intro lists a b
    simp [emberEqual, pyEq, heapDepth, beq_decide]
  · intro lists q x
    constructor <;> simp [emberEqual, pyEq, heapDepth, beq_decide]
  · intro lists a b hk hnb
    cases a <;> cases b <;>
      simp_all [vkind, numBoolPair, emberEqual, pyEq, heapDepth]
  · intro n li co l r env s lv rv s1 s2 h1 h2
    constructor <;>
    · simp only [interpAt, interpStep, h1, h2]
      rw [if_neg (by decide), if_neg (by decide)]
      simp

/-- Claim C1, the claim as frozen is false: the cross-type comparison
1 == true evaluates to true (and 1 != true to false), because Python ==
relates a float and a bool numerically. -/
theorem c1_counterexample :
    (interpAt 5).evalFn (.binaryOp 1 3 (.numberLiteral 1 1 1) "=="
      (.boolLiteral 1 6 true)) 0 initState = .ok (.bool true) initState
  ∧ (interpAt 5).evalFn (.binaryOp 1 3 (.numberLiteral 1 1 1) "!="
      (.boolLiteral 1 6 true)) 0 initState = .ok (.bool false) initState := by
  constructor <;> with_unfolding_all rfl

/-- Witness for c1_equality_semantics at concrete inputs. -/
theorem c1_witness :
    emberEqual [] (.num 1) (.str "1") = false
  ∧ emberEqual [] (.num (3/2)) (.num (3/2)) = true
  ∧ emberEqual [] (.num 1) (.bool true) = true := by
  refine ⟨c1_equality_semantics.2.2.2.2.2.2.1 [] (.num 1) (.str "1")
      (by decide) (by simp [numBoolPair, vkind]), ?_, ?_⟩
  · rw [c1_equality_semantics.2.2.1 [] (3/2) (3/2)]
    simp
  · rw [(c1_equality_semantics.2.2.2.2.2.1 [] 1 true).1]
    norm_num

/-- The three-statement program: print("before"), a bare top-level
return, print("after"). -/
def returnProg : ASTNode := .program 1 1 [
  .expressionStatement 1 1 (.functionCall 1 6 (.identifier 1 1 "print")
    [.stringLiteral 1 7 "before"]),
  .returnStatement 2 1 none,
  .expressionStatement 3 1 (.functionCall 3 6 (.identifier 3 1 "print")
    [.stringLiteral 3 7 "after"])]

/-- Claim C3 (amended): a return statement at top level raises the
ReturnSignal control-flow exception, which aborts the statement sequence
(later statements do not run, earlier side effects stand) and propagates
out of execute to the caller uncaught (it is not an EmberError). -/
theorem c3_top_level_return :
    (∀ (l c : ℤ) (rest : List ASTNode) (s : IState) (n : ℕ),
      executeStmts (n + 2) (.returnStatement l c none :: rest) s = .exc (.ret .nil) s)
  ∧ executeProgram 20 returnProg initState
      = .exc (.ret .nil) (Res.state (executeProgram 20 returnProg initState))
  ∧ (Res.state (executeProgram 20 returnProg initState)).output = ["before"]
  ∧ Res.isOk (executeProgram 20 returnProg initState) = false := by
  refine ⟨?_, ?_, ?_, ?_⟩
  · intro l c rest s n
    simp [executeStmts, interpAt, interpStep]
  · with_unfolding_all rfl
  · with_unfolding_all rfl
  · with_unfolding_all rfl

/-- Claim C3, the claim as frozen is false: execute on a program with a
top-level return does not terminate that statement sequence normally; the
ReturnSignal exception surfaces to the caller. -/
theorem c3_counterexample :
    Res.isOk (executeProgram 20 returnProg initState) = false
  ∧ Res.excOf (executeProgram 20 returnProg initState) = some (.ret .nil)
  ∧ (Res.state (executeProgram 20 returnProg initState)).output = ["before"] := by
  refine ⟨?_, ?_, ?_⟩ <;> with_unfolding_all rfl

/-- The program: let arr = [10, 20]; let arr[1.5] = 99; print(arr). -/
def fracIndexProg : ASTNode := .program 1 1 [
  .letStatement 1 1 "arr" (.listLiteral 1 11
    [.numberLiteral 1 12 10, .numberLiteral 1 16 20]),
  .indexAssignment 2 1 (.identifier 2 5 "arr") (.numberLiteral 2 9 (3 / 2))
    (.numberLiteral 2 16 99),
  .expressionStatement 3 1 (.functionCall 3 6 (.identifier 3 1 "print")
    [.identifier 3 7 "arr"])]

/-- Claim C4 (amended): index assignment requires a List target (else a
TypeError naming the value and its Python type) and a Number index (else
TypeError "List index must be a number"); a Number index is truncated
toward zero by int(), the truncation must lie in 0 ≤ idx < length (else
RuntimeError "out of range"), and the element at the truncated position
is overwritten — so a fractional index such as 1.5 silently assigns to
element 1. -/
theorem c4_index_assignment :
    (∀ (s : IState) (li co : ℤ) (r : ℕ) (q : ℚ) (v : Value),
        (pyInt q < 0 ∨ ((getList s.lists r).length : ℤ) ≤ pyInt q →
          indexAssignCore (.listRef r) (.num q) v li co s
            = .exc (.err ⟨.runtimeErr, "Index " ++ intStr (pyInt q) ++
                " out of range for list of length " ++
                natStr (getList s.lists r).length, li, co⟩) s)
      ∧ (0 ≤ pyInt q → pyInt q < ((getList s.lists r).length : ℤ) →
          indexAssignCore (.listRef r) (.num q) v li co s
            = .ok ()
              ({ s with lists := s.lists.set r ((getList s.lists r).set (pyInt q).toNat v) })))
  ∧ (∀ (s : IState) (li co : ℤ) (r : ℕ) (iv v : Value), vkind iv ≠ .numK →
      indexAssignCore (.listRef r) iv v li co s
        = .exc (.err ⟨.typeErr, "List index must be a number", li, co⟩) s)
  ∧ (∀ (s : IState) (li co : ℤ) (ov iv v : Value), vkind ov ≠ .listK →
      indexAssignCore ov iv v li co s
        = .exc (.err ⟨.typeErr, "Cannot index into " ++ formatValue s.lists ov ++
            " (type " ++ pyTypeName ov ++ ")", li, co⟩) s)
  ∧ Res.isOk (executeProgram 20 fracIndexProg initState) = true
  ∧ (Res.state (executeProgram 20 fracIndexProg initState)).lists
      = [[.num 10, .num 99]]
  ∧ (Res.state (executeProgram 20 fracIndexProg initState)).output
      = ["[10, 99]"] := by
  refine ⟨?_, ?_, ?_, ?_, ?_, ?_⟩
  · intro s li co r q v
    constructor
    · intro h
      simp only [indexAssignCore]
      rw [if_pos]
      · omega
    · intro h0 hlt
      simp only [indexAssignCore]
      rw [if_neg]
      omega
  · intro s li co r iv v hk
    cases iv <;> simp_all [vkind, indexAssignCore]
  · intro s li co ov iv v hk
    cases ov <;> simp_all [vkind, indexAssignCore]
  · with_unfolding_all rfl
  · with_unfolding_all rfl
  · with_unfolding_all rfl

/-- Claim C4, the claim as frozen is false: the fractional index 1.5 does
silently assign — running let arr = [10, 20] then let arr[1.5] = 99
succeeds and overwrites element 1, leaving [10, 99]. -/
theorem c4_counterexample :
    Res.isOk (executeProgram 20 fracIndexProg initState) = true
  ∧ (Res.state (executeProgram 20 fracIndexProg initState)).lists
      = [[.num 10, .num 99]] := by
  constructor <;> with_unfolding_all rfl

/-- Witness for c4_index_assignment at concrete inputs: the in-range
branch at index 1.5 over the two-element heap list. -/
theorem c4_witness :
    indexAssignCore (.listRef 0) (.num (3 / 2)) (.num 99) 2 1
        ⟨[builtinEnv], [[.num 10, .num 20]], 0, [], []⟩
      = .ok () ⟨[builtinEnv], [[.num 10, .num 99]], 0, [], []⟩ := by
  have h := ((c4_index_assignment.1 ⟨[builtinEnv], [[.num 10, .num 20]], 0, [], []⟩
      2 1 0 (3 / 2) (.num 99)).2
    (by norm_num [pyInt]) (by norm_num [pyInt, getList]))
  refine h.trans ?_
  with_unfolding_all rfl

/-- The program print(false and 1 / 0). -/
def andDivProg : ASTNode := .program 1 1 [.expressionStatement 1 1
  (.functionCall 1 6 (.identifier 1 1 "print")
    [.binaryOp 1 13 (.boolLiteral 1 7 false) "and"
      (.binaryOp 1 19 (.numberLiteral 1 17 1) "/" (.numberLiteral 1 21 0))])]

/-- Claim C7: and/or short-circuit.  When the left operand of "and" is
falsy its raw value is the result and the right operand is never
evaluated (the result does not depend on it); when it is truthy the
result is exactly the evaluation of the right operand, uncoerced.  The
"or" operator mirrors this, and print(false and 1 / 0) prints "false"
and raises no division error. -/
theorem c7_short_circuit :
    (∀ (n : ℕ) (li co : ℤ) (l r r2 : ASTNode) (env : ℕ) (s : IState)
        (lv : Value) (s1 : IState),
      (interpAt n).evalFn l env s = .ok lv s1 → isTruthy lv = false →
        (interpAt (n + 1)).evalFn (.binaryOp li co l "and" r) env s = .ok lv s1
      ∧ (interpAt (n + 1)).evalFn (.binaryOp li co l "and" r) env s
          = (interpAt (n + 1)).evalFn (.binaryOp li co l "and" r2) env s)
  ∧ (∀ (n : ℕ) (li co : ℤ) (l r : ASTNode) (env : ℕ) (s : IState)
        (lv : Value) (s1 : IState),
      (interpAt n).evalFn l env s = .ok lv s1 → isTruthy lv = true →
        (interpAt (n + 1)).evalFn (.binaryOp li co l "and" r) env s
          = (interpAt n).evalFn r env s1)
  ∧ (∀ (n : ℕ) (li co : ℤ) (l r r2 : ASTNode) (env : ℕ) (s : IState)
        (lv : Value) (s1 : IState),
      (interpAt n).evalFn l env s = .ok lv s1 → isTruthy lv = true →
        (interpAt (n + 1)).evalFn (.binaryOp li co l "or" r) env s = .ok lv s1
      ∧ (interpAt (n + 1)).evalFn (.binaryOp li co l "or" r) env s
          = (interpAt (n + 1)).evalFn (.binaryOp li co l "or" r2) env s)
  ∧ (∀ (n : ℕ) (li co : ℤ) (l r : ASTNode) (env : ℕ) (s : IState)
        (lv : Value) (s1 : IState),
      (interpAt n).evalFn l env s = .ok lv s1 → isTruthy lv = false →
        (interpAt (n + 1)).evalFn (.binaryOp li co l "or" r) env s
          = (interpAt n).evalFn r env s1)
  ∧ Res.isOk (executeProgram 20 andDivProg initState) = true
  ∧ (Res.state (executeProgram 20 andDivProg initState)).output = ["false"] := by
  refine ⟨?_, ?_, ?_, ?_, ?_, ?_⟩
  · intro n li co l r r2 env s lv s1 h1 hf
    constructor <;> simp [interpAt, interpStep, h1, hf]
  · intro n li co l r env s lv s1 h1 ht
    simp [interpAt, interpStep, h1, ht]
  · intro n li co l r r2 env s lv s1 h1 ht
    constructor <;> simp [interpAt, interpStep, h1, ht]
  · intro n li co l r env s lv s1 h1 hf
    simp [interpAt, interpStep, h1, hf]
  · with_unfolding_all rfl
  · with_unfolding_all rfl

/-- Witness for c7_short_circuit: the falsy-left "and" case at the
literal false with a division by zero on the right. -/
theorem c7_witness :
    (interpAt 4).evalFn (.binaryOp 1 13 (.boolLiteral 1 7 false) "and"
      (.binaryOp 1 19 (.numberLiteral 1 17 1) "/" (.numberLiteral 1 21 0)))
      0 initState = .ok (.bool false) initState := by
  exact (c7_short_circuit.1 3 1 13
    (.boolLiteral 1 7 false)
    (.binaryOp 1 19 (.numberLiteral 1 17 1) "/" (.numberLiteral 1 21 0))
    (.nilLiteral 1 1) 0 initState (.bool false) initState
    (by with_unfolding_all rfl) (by rfl)).1

/-- The program fn g() do let x = 1 end; print(g()). -/
def nilReturnProg : ASTNode := .program 1 1 [
  .functionDef 1 1 "g" [] [.letStatement 2 5 "x" (.numberLiteral 2 13 1)],
  .expressionStatement 3 1 (.functionCall 3 6 (.identifier 3 1 "print")
    [.functionCall 3 8 (.identifier 3 7 "g") []])]

/-- Claim C10: a user-function call whose body runs to completion without
executing a return yields Nil: when the body statements execute normally
the call returns None (Nil) to the caller, after the finally clause
decrements the depth counter; concretely, printing g() for a returnless
g prints "nil". -/
theorem c10_implicit_nil_return :
    (∀ (n : ℕ) (f : EmberFunction) (args : List Value) (li co : ℤ)
        (s s3 : IState),
      args.length = f.params.length →
      s.callDepth + 1 ≤ (MAX_CALL_DEPTH : ℤ) →
      (interpAt n).execListFn f.body s.envs.length
          ({ s with
              callDepth := s.callDepth + 1,
              envs := s.envs ++ [⟨List.zip f.params args, some f.closure⟩] })
        = .ok () s3 →
      (interpAt (n + 1)).callFn (.fn f) args li co s
        = .ok .nil ({ s3 with callDepth := s3.callDepth - 1 }))
  ∧ Res.isOk (executeProgram 20 nilReturnProg initState) = true
  ∧ (Res.state (executeProgram 20 nilReturnProg initState)).output = ["nil"] := by
  refine ⟨?_, ?_, ?_⟩
  · intro n f args li co s s3 hlen hdepth hbody
    simp only [interpAt, interpStep, hlen]
    rw [if_neg (by simp), if_neg (by omega)]
    simp only [hbody]
  · with_unfolding_all rfl
  · with_unfolding_all rfl

/-- Witness for c10_implicit_nil_return: a parameterless function with a
single let statement as its body, called at depth zero. -/
theorem c10_witness :
    (interpAt 4).callFn
      (.fn ⟨"g", [], [.letStatement 2 5 "x" (.numberLiteral 2 13 1)], 0⟩)
      [] 3 7 initState
      = .ok .nil ⟨[builtinEnv, ⟨[("x", .num 1)], some 0⟩], [], 0, [], []⟩ := by
  have h := c10_implicit_nil_return.1 3
    ⟨"g", [], [.letStatement 2 5 "x" (.numberLiteral 2 13 1)], 0⟩
    [] 3 7 initState
    ⟨[builtinEnv, ⟨[("x", .num 1)], some 0⟩], [], 1, [], []⟩
    (by rfl) (by norm_num [initState, initStateWith, MAX_CALL_DEPTH])
    (by with_unfolding_all rfl)
  exact h.trans (by with_unfolding_all rfl)

/-- Lex a source text and parse one expression from the resulting token
stream (the path the parser tests take for expressions). -/
def parseExprSource (source : String) : Except Exc (ASTNode × ℕ) :=
  match tokenize source with
  | .ok toks => parseExpression toks
  | .error e => .error e

/-- The token types parsed as plain binary operators (every
INFIX_PRECEDENCE entry except call and index). -/
def binOpTypes : List TokenType :=
  [.OR, .AND, .EQUAL_EQUAL, .BANG_EQUAL, .LESS, .GREATER, .LESS_EQUAL,
   .GREATER_EQUAL, .PLUS, .MINUS, .STAR, .SLASH, .PERCENT]

/-- The lexeme the lexer gives each binary-operator token. -/
def opLexeme : TokenType → String
  | .OR => "or"
  | .AND => "and"
  | .EQUAL_EQUAL => "=="
  | .BANG_EQUAL => "!="
  | .LESS => "<"
  | .GREATER => ">"
  | .LESS_EQUAL => "<="
  | .GREATER_EQUAL => ">="
  | .PLUS => "+"
  | .MINUS => "-"
  | .STAR => "*"
  | .SLASH => "/"
  | .PERCENT => "%"
  | _ => ""

/-- A binary-operator token at a neutral position. -/
def opTok (tt : TokenType) : Token := ⟨tt, opLexeme tt, none, 0, 0⟩

/-- A NUMBER token at a neutral position. -/
def numTok (q : ℚ) : Token := ⟨.NUMBER, "", some (.numL q), 0, 0⟩

/-- The token stream of the two-operator expression 1 o1 2 o2 3. -/
def pairStream (o1 o2 : TokenType) : List Token :=
  [numTok 1, opTok o1, numTok 2, opTok o2, numTok 3, ⟨.EOF, "", none, 0, 0⟩]

/-- The parse the precedence table prescribes for 1 o1 2 o2 3: right
nesting exactly when o2 binds tighter, else left nesting
(left-associativity at equal precedence). -/
def pairExpected (o1 o2 : TokenType) : ASTNode :=
  if infixPrecedence o1 < infixPrecedence o2 then
    .binaryOp 0 0 (.numberLiteral 0 0 1) (opLexeme o1)
      (.binaryOp 0 0 (.numberLiteral 0 0 2) (opLexeme o2) (.numberLiteral 0 0 3))
  else
    .binaryOp 0 0
      (.binaryOp 0 0 (.numberLiteral 0 0 1) (opLexeme o1) (.numberLiteral 0 0 2))
      (opLexeme o2) (.numberLiteral 0 0 3)

/-- Claim C9: the declared precedence levels are strictly increasing from
or to call/index; parsing "1 + 2 * 3" nests the multiplication on the
right of the addition; parsing "1 - 2 - 3" nests the first subtraction on
the left of the second; and for every pair of binary operators, 1 o1 2 o2 3
parses right-nested exactly when o2 has higher precedence, else
left-nested. -/
theorem c9_precedence_and_associativity :
    (PREC_OR < PREC_AND ∧ PREC_AND < PREC_NOT ∧ PREC_NOT < PREC_EQUALITY
      ∧ PREC_EQUALITY < PREC_COMPARISON ∧ PREC_COMPARISON < PREC_ADDITION
      ∧ PREC_ADDITION < PREC_MULTIPLICATION ∧ PREC_MULTIPLICATION < PREC_UNARY
      ∧ PREC_UNARY < PREC_CALL)
  ∧ parseExprSource "1 + 2 * 3"
      = .ok (.binaryOp 1 3 (.numberLiteral 1 1 1) "+"
          (.binaryOp 1 7 (.numberLiteral 1 5 2) "*" (.numberLiteral 1 9 3)), 5)
  ∧ parseExprSource "1 - 2 - 3"
      = .ok (.binaryOp 1 7
          (.binaryOp 1 3 (.numberLiteral 1 1 1) "-" (.numberLiteral 1 5 2))
          "-" (.numberLiteral 1 9 3), 5)
  ∧ (∀ o1 o2 : TokenType, o1 ∈ binOpTypes → o2 ∈ binOpTypes →
      parseExpression (pairStream o1 o2) = .ok (pairExpected o1 o2, 5)) := by
  refine ⟨by decide, by with_unfolding_all rfl, by with_unfolding_all rfl, ?_⟩
  intro o1 o2 h1 h2
  fin_cases h1 <;> fin_cases h2 <;> rfl

/-- Witness for c9_precedence_and_associativity: the PLUS/STAR pair
parses right-nested. -/
theorem c9_witness :
    parseExpression (pairStream .PLUS .STAR)
      = .ok (pairExpected .PLUS .STAR, 5) :=
  c9_precedence_and_associativity.2.2.2 .PLUS .STAR (by decide) (by decide)

/-- No NEWLINE token directly follows another NEWLINE token. -/
def noConsecNewline : List Token → Bool
  | t1 :: t2 :: rest =>
      !(t1.type == .NEWLINE && t2.type == .NEWLINE) && noConsecNewline (t2 :: rest)
  | _ => true

/-- No EOF token occurs in the list. -/
def noEOF (toks : List Token) : Bool := toks.all (fun t => !(t.type == .EOF))

theorem noConsecNewline_append (toks : List Token) (t : Token)
    (h : noConsecNewline toks = true)
    (h2 : t.type = .NEWLINE → ∀ tl, toks.getLast? = some tl → tl.type ≠ .NEWLINE) :
    noConsecNewline (toks ++ [t]) = true := by
  induction toks with
  | nil => rfl
  | cons a rest ih =>
      cases rest with
      | nil =>
          simp only [List.cons_append, List.nil_append, noConsecNewline,
            Bool.and_eq_true, Bool.not_eq_true']
          refine ⟨?_, by trivial⟩
          by_cases ha : a.type = .NEWLINE
          · by_cases ht : t.type = .NEWLINE
            · exact absurd (h2 ht a (by simp)) (fun hn => hn ha)
            · simp [ht]
          · simp [ha]
      | cons b rest2 =>
          simp only [noConsecNewline, Bool.and_eq_true] at h
          have ih2 := ih h.2 (fun ht tl hl => h2 ht tl (by simp_all))
          simp only [List.cons_append, noConsecNewline, Bool.and_eq_true]
          exact ⟨h.1, by simpa using ih2⟩

theorem noEOF_append (toks : List Token) (t : Token)
    (h : noEOF toks = true) (ht : t.type ≠ .EOF) :
    noEOF (toks ++ [t]) = true := by
  simp_all [noEOF]

theorem emitNewline_inv (toks : List Token) (p : LexPos)
    (h1 : noConsecNewline toks = true) (h2 : noEOF toks = true) :
    noConsecNewline (emitNewline toks p) = true
      ∧ noEOF (emitNewline toks p) = true := by
  unfold emitNewline
  rcases hl : toks.getLast? with _ | tl
  · exact ⟨h1, h2⟩
  · by_cases hn : tl.type = .NEWLINE
    · simp only [hn, if_pos rfl]
      exact ⟨h1, h2⟩
    · simp only [if_neg hn]
      refine ⟨noConsecNewline_append toks _ h1 ?_, noEOF_append toks _ h2 (by simp)⟩
      intro _ tl2 hl2
      rw [hl] at hl2
      cases hl2
      exact hn

theorem keywordType_ne (s : String) :
    (keywordType s).getD .IDENTIFIER ≠ .NEWLINE
      ∧ (keywordType s).getD .IDENTIFIER ≠ .EOF := by
  unfold keywordType
  rcases hf : KEYWORDS.find? (fun p => p.1 == s) with _ | p
  · rw [hf]
    simp
  · have hm := List.mem_of_find?_eq_some hf
    rw [hf]
    fin_cases hm <;> simp

theorem singleTokType_ne (c : Char) (tt : TokenType) (h : singleTokType c = some tt) :
    tt ≠ .NEWLINE ∧ tt ≠ .EOF := by
  unfold singleTokType at h
  rcases hf : SINGLE_TOKENS.find? (fun p => p.1 == c) with _ | p
  · rw [hf] at h
    cases h
  · rw [hf] at h
    have hm := List.mem_of_find?_eq_some hf
    cases h
    fin_cases hm <;> simp


theorem runLex_inv (fuel : ℕ) :
    ∀ (cs : List Char) (p : LexPos) (toks out : List Token) (p' : LexPos),
    noConsecNewline toks = true → noEOF toks = true →
    runLex fuel cs p toks = .ok (out, p') →
    noConsecNewline out = true ∧ noEOF out = true := by
  induction fuel with
  | zero =>
      intro cs p toks out p' _ _ h
      simp [runLex] at h
  | succ n ih =>
      intro cs p toks out p' h1 h2 h
      cases cs with
      | nil =>
          simp only [runLex] at h
          cases h
          exact ⟨h1, h2⟩
      | cons c rest =>
          simp only [runLex] at h
          by_cases hws : (c = ' ' ∨ c = '\t' ∨ c = '\r')
          · rw [if_pos hws] at h
            exact ih _ _ _ _ _ h1 h2 h
          rw [if_neg hws] at h
          by_cases hnl : c = '\n'
          · rw [if_pos hnl] at h
            obtain ⟨e1, e2⟩ := emitNewline_inv toks (advPos c p) h1 h2
            exact ih _ _ _ _ _ e1 e2 h
          rw [if_neg hnl] at h
          by_cases hcm : c = '#'
          · rw [if_pos hcm] at h
            rcases hsk : skipComment rest (advPos c p) with ⟨rest2, p2⟩
            rw [hsk] at h
            exact ih _ _ _ _ _ h1 h2 h
          rw [if_neg hcm] at h
          by_cases hq : c = '"'
          · rw [if_pos hq] at h
            rcases hrs : readStringChars rest (advPos c p) [] with _ | ⟨text, rest2, p2⟩
            · rw [hrs] at h
              cases h
            · rw [hrs] at h
              refine ih _ _ _ _ _ ?_ ?_ h
              · exact noConsecNewline_append toks _ h1 (by intro ht; cases ht)
              · exact noEOF_append toks _ h2 (by simp)
          rw [if_neg hq] at h
          by_cases hd : c.isDigit
          · rw [if_pos hd] at h
            rcases hsn : splitNumber rest with ⟨ds, fs, rest1⟩
            rw [hsn] at h
            refine ih _ _ _ _ _ ?_ ?_ h
            · exact noConsecNewline_append toks _ h1 (by intro ht; cases ht)
            · exact noEOF_append toks _ h2 (by simp)
          rw [if_neg hd] at h
          by_cases ha : (c.isAlpha ∨ c = '_')
          · rw [if_pos ha] at h
            rcases hid : takeIdentRest rest with ⟨cs2, rest1⟩
            rw [hid] at h
            refine ih _ _ _ _ _ ?_ ?_ h
            · refine noConsecNewline_append toks _ h1 ?_
              intro ht
              exact absurd ht (keywordType_ne _).1
            · refine noEOF_append toks _ h2 ?_
              exact (keywordType_ne _).2
          rw [if_neg ha] at h
          -- the two-character operators and the single-character fallback
          split at h
          · exact ih _ _ _ _ _
              (noConsecNewline_append toks _ h1 (by intro ht; cases ht))
              (noEOF_append toks _ h2 (by simp)) h
          · exact ih _ _ _ _ _
              (noConsecNewline_append toks _ h1 (by intro ht; cases ht))
              (noEOF_append toks _ h2 (by simp)) h
          · exact ih _ _ _ _ _
              (noConsecNewline_append toks _ h1 (by intro ht; cases ht))
              (noEOF_append toks _ h2 (by simp)) h
          · exact ih _ _ _ _ _
              (noConsecNewline_append toks _ h1 (by intro ht; cases ht))
              (noEOF_append toks _ h2 (by simp)) h
          · rcases hst : singleTokType c with _ | tt
            · rw [hst] at h
              cases h
            · rw [hst] at h
              refine ih _ _ _ _ _ ?_ ?_ h
              · refine noConsecNewline_append toks _ h1 ?_
                intro ht
                exact absurd ht (singleTokType_ne c tt hst).1
              · exact noEOF_append toks _ h2 (singleTokType_ne c tt hst).2


theorem noEOF_filter (l : List Token) (h : noEOF l = true) :
    l.filter (fun t => t.type == .EOF) = [] := by
  simp only [noEOF, List.all_eq_true] at h
  simp only [List.filter_eq_nil_iff]
  intro t ht
  simpa using h t ht

/-- Claim C6: every successful tokenize run yields a stream that is
nonempty, ends in exactly one EOF token, and contains no NEWLINE token
directly after another NEWLINE token (so at most one trailing NEWLINE
precedes the EOF); tokenizing "a\n\n\nb" yields exactly
IDENTIFIER(a), NEWLINE, IDENTIFIER(b), NEWLINE, EOF. -/
theorem c6_token_stream_shape :
    (∀ (src : String) (toks : List Token), tokenize src = .ok toks →
        toks ≠ []
      ∧ (toks.getLast?).map Token.type = some .EOF
      ∧ (toks.filter (fun t => t.type == .EOF)).length = 1
      ∧ noConsecNewline toks = true)
  ∧ tokenize "a\n\n\nb" = .ok [⟨.IDENTIFIER, "a", none, 1, 1⟩,
      ⟨.NEWLINE, "\\n", none, 1, 1⟩, ⟨.IDENTIFIER, "b", none, 4, 1⟩,
      ⟨.NEWLINE, "\\n", none, 4, 2⟩, ⟨.EOF, "", none, 4, 2⟩] := by
  constructor
  · intro src toks h
    unfold tokenize at h
    rcases hrl : runLex (src.length + 1) src.toList ⟨1, 1⟩ [] with e | ⟨toks0, p⟩
    · rw [hrl] at h
      cases h
    simp only [hrl] at h
    obtain ⟨i1, i2⟩ := runLex_inv (src.length + 1) src.toList ⟨1, 1⟩ [] toks0 p rfl rfl hrl
    -- the optional trailing NEWLINE
    have step : ∃ toks1, (noConsecNewline toks1 = true ∧ noEOF toks1 = true) ∧
        Except.ok (toks1 ++ [⟨.EOF, "", none, p.line, p.col⟩])
          = (Except.ok toks : Except Exc (List Token)) := by
      rcases hl : toks0.getLast? with _ | tl
      · refine ⟨toks0, ⟨i1, i2⟩, ?_⟩
        simp only [hl] at h
        exact h
      · simp only [hl] at h
        by_cases hc : tl.type ≠ TokenType.NEWLINE ∧ tl.type ≠ TokenType.EOF
        · rw [if_pos hc] at h
          refine ⟨toks0 ++ [⟨.NEWLINE, "\\n", none, p.line, p.col⟩], ⟨?_, ?_⟩, h⟩
          · refine noConsecNewline_append toks0 _ i1 ?_
            intro _ tl2 hl2
            rw [hl] at hl2
            cases hl2
            exact hc.1
          · exact noEOF_append toks0 _ i2 (by simp)
        · rw [if_neg hc] at h
          exact ⟨toks0, ⟨i1, i2⟩, h⟩
    obtain ⟨toks1, ⟨j1, j2⟩, hj⟩ := step
    cases hj
    refine ⟨by simp, ?_, ?_, ?_⟩
    · simp
    · rw [List.filter_append, noEOF_filter toks1 j2]
      simp
    · refine noConsecNewline_append toks1 _ j1 ?_
      intro ht
      cases ht
  · with_unfolding_all rfl

/-- Witness for c6_token_stream_shape applied to the concrete source
"a\n\n\nb". -/
theorem c6_witness :
    ∃ toks, tokenize "a\n\n\nb" = .ok toks ∧ toks ≠ []
      ∧ (toks.getLast?).map Token.type = some .EOF
      ∧ (toks.filter (fun t => t.type == .EOF)).length = 1
      ∧ noConsecNewline toks = true := by
  refine ⟨_, by with_unfolding_all rfl, ?_⟩
  exact c6_token_stream_shape.1 "a\n\n\nb" _ (by with_unfolding_all rfl)

/-- The scope Environment.set would mutate: the nearest scope in the
chain already containing the name. -/
def nearestScopeFuel : ℕ → List EnvRec → ℕ → String → Option ℕ
  | 0, _, _, _ => none
  | fuel + 1, heap, i, name =>
      match heap.get? i with
      | none => none
      | some r =>
          if (assocGet r.values name).isSome then some i
          else
            match r.parent with
            | some p => nearestScopeFuel fuel heap p name
            | none => none

/-- The while-loop rebinding program: let i = 0 followed by a loop that
prints i and re-runs let i = i + 1 in the loop body scope. -/
def loopProg : ASTNode := .program 1 1 [
  .letStatement 1 1 "i" (.numberLiteral 1 9 0),
  .whileStatement 2 1 (.binaryOp 2 7 (.identifier 2 7 "i") "<"
    (.numberLiteral 2 11 3)) [
    .expressionStatement 3 5 (.functionCall 3 10 (.identifier 3 5 "print")
      [.identifier 3 11 "i"]),
    .letStatement 4 5 "i" (.binaryOp 4 13 (.identifier 4 13 "i") "+"
      (.numberLiteral 4 17 1))]]

/-- Claim C8: let evaluates the right-hand side first; if the name is
visible anywhere in the scope chain it mutates the nearest scope that
contains it (Environment.set, which never creates a binding: the mutated
scope keeps exactly its names), and only otherwise defines the name in
the current scope.  Re-running let in a loop body therefore rebinds the
outer variable: the counter loop prints 0, 1, 2 and terminates. -/
theorem c8_let_rebinds_nearest_scope :
    (∀ (n : ℕ) (li co : ℤ) (name : String) (vE : ASTNode) (env : ℕ)
        (s : IState) (v : Value) (s1 : IState),
      (interpAt n).evalFn vE env s = .ok v s1 →
      (interpAt (n + 1)).execFn (.letStatement li co name vE) env s
        = .ok ()
          ({ s1 with envs := (if envHas s1.envs env name
            then envSetD s1.envs env name v else envDefine s1.envs env name v) }))
  ∧ (∀ (fuel : ℕ) (heap : List EnvRec) (i : ℕ) (name : String) (v : Value),
      envSetFuel fuel heap i name v
        = (nearestScopeFuel fuel heap i name).map
            (fun j => heapUpdate heap j (fun r => ⟨assocSet r.values name v, r.parent⟩)))
  ∧ (∀ (fuel : ℕ) (heap : List EnvRec) (i : ℕ) (name : String),
      envHasFuel fuel heap i name = (nearestScopeFuel fuel heap i name).isSome)
  ∧ (∀ (fuel : ℕ) (heap : List EnvRec) (i : ℕ) (name : String) (j : ℕ),
      nearestScopeFuel fuel heap i name = some j →
      ∃ r, heap.get? j = some r ∧ (assocGet r.values name).isSome = true)
  ∧ (∀ (l : List (String × Value)) (name : String) (v : Value),
      (assocGet l name).isSome = true →
      (assocSet l name v).map Prod.fst = l.map Prod.fst)
  ∧ Res.isOk (executeProgram 20 loopProg initState) = true
  ∧ (Res.state (executeProgram 20 loopProg initState)).output = ["0", "1", "2"] := by
  refine ⟨?_, ?_, ?_, ?_, ?_, ?_, ?_⟩
  · intro n li co name vE env s v s1 h1
    simp only [interpAt, interpStep, h1]
    split <;> rfl
  · intro fuel
    induction fuel with
    | zero => intro heap i name v; rfl
    | succ m ih =>
        intro heap i name v
        simp only [envSetFuel, nearestScopeFuel]
        rcases hg : heap.get? i with _ | r <;> simp only [hg]
        · rfl
        · by_cases hv : (assocGet r.values name).isSome = true
          · simp only [hv, if_true, Option.map_some']
            unfold heapUpdate
            rw [hg]
          · simp only [Bool.not_eq_true] at hv
            simp only [hv, Bool.false_eq_true, if_false]
            rcases r.parent with _ | par
            · rfl
            · exact ih heap par name v
  · intro fuel
    induction fuel with
    | zero => intro heap i name; rfl
    | succ m ih =>
        intro heap i name
        simp only [envHasFuel, nearestScopeFuel]
        rcases hg : heap.get? i with _ | r <;> simp only [hg]
        · rfl
        · by_cases hv : (assocGet r.values name).isSome = true
          · simp [hv]
          · simp only [Bool.not_eq_true] at hv
            simp only [hv, Bool.false_eq_true, if_false]
            rcases r.parent with _ | par
            · rfl
            · exact ih heap par name
  · intro fuel
    induction fuel with
    | zero => intro heap i name j h; cases h
    | succ m ih =>
        intro heap i name j h
        simp only [nearestScopeFuel] at h
        rcases hg : heap.get? i with _ | r
        · simp only [hg] at h
          exact Option.noConfusion h
        · simp only [hg] at h
          by_cases hv : (assocGet r.values name).isSome = true
          · rw [if_pos hv] at h
            cases h
            exact ⟨r, hg, hv⟩
          · simp only [Bool.not_eq_true] at hv
            rw [if_neg (by simp [hv])] at h
            rcases hp : r.parent with _ | par <;> simp only [hp] at h
            · exact Option.noConfusion h
            · exact ih heap par name j h
  · intro l name v h
    induction l with
    | nil => cases h
    | cons a rest ih =>
        obtain ⟨k, w⟩ := a
        simp only [assocGet] at h
        by_cases hk : k = name
        · simp [assocSet, hk]
        · rw [if_neg hk] at h
          simp only [assocSet, if_neg hk, List.map_cons, ih h]
  · with_unfolding_all rfl
  · with_unfolding_all rfl

/-- Witness for c8_let_rebinds_nearest_scope: a two-scope chain where the
name lives in the parent; set mutates the parent record and keeps its
domain. -/
theorem c8_witness :
    envSetFuel 3 [⟨[("i", .num 0)], none⟩, ⟨[], some 0⟩] 1 "i" (.num 5)
      = some [⟨[("i", .num 5)], none⟩, ⟨[], some 0⟩]
  ∧ (assocSet [("i", Value.num 0)] "i" (.num 5)).map Prod.fst
      = [("i", Value.num 0)].map Prod.fst := by
  constructor
  · rw [c8_let_rebinds_nearest_scope.2.1 3 [⟨[("i", .num 0)], none⟩, ⟨[], some 0⟩] 1 "i" (.num 5)]
    rfl
  · exact c8_let_rebinds_nearest_scope.2.2.2.2.1 [("i", .num 0)] "i" (.num 5) (by rfl)


/-- The call expression f() at line 1, column 1 (used both at top level
and inside the body of f, so the recursion-limit error always carries
position 1:1). -/
def callF : ASTNode := .functionCall 1 1 (.identifier 1 1 "f") []

/-- The function value produced by fn f() do f() end defined at the
global scope. -/
def fRec : EmberFunction := ⟨"f", [], [.expressionStatement 1 1 callF], 0⟩

/-- The frame environment every recursive call of f allocates: no
parameters, parent the global scope. -/
def envF : EnvRec := ⟨[], some 0⟩

/-- The heap invariant the recursion maintains: the global record exists,
has no parent, and binds f to the recursive function. -/
def QRec (heap : List EnvRec) : Prop :=
  ∃ r, heap.get? 0 = some r ∧ r.parent = none ∧
    assocGet r.values "f" = some (.fn fRec)

theorem interpAt_succ (n : ℕ) : interpAt (n + 1) = interpStep (interpAt n) := rfl

theorem QRec_append (heap ext : List EnvRec) (h : QRec heap) : QRec (heap ++ ext) := by
  obtain ⟨r, h1, h2, h3⟩ := h
  refine ⟨r, ?_, h2, h3⟩
  have hlen : 0 < heap.length := by
    cases heap
    · cases h1
    · simp
  rw [List.get?_append hlen]
  exact h1

theorem envGet_global (heap : List EnvRec) (h : QRec heap) :
    envGet heap 0 "f" = some (.fn fRec) := by
  obtain ⟨r, h1, h2, h3⟩ := h
  unfold envGet
  simp only [envGetFuel, h1, h3]

theorem envGet_newEnv (heap : List EnvRec) (h : QRec heap) :
    envGet (heap ++ [envF]) heap.length "f" = some (.fn fRec) := by
  obtain ⟨r, h1, h2, h3⟩ := h
  have hlen : 0 < heap.length := by
    cases heap
    · cases h1
    · simp
  unfold envGet
  have hl : (heap ++ [envF]).length + 1 = (heap.length + 1) + 1 := by simp
  rw [hl]
  simp only [envGetFuel, List.get?_concat_length]
  show (match assocGet envF.values "f" with
    | some v => some v
    | none => match envF.parent with
      | some p => envGetFuel (heap.length + 1) (heap ++ [envF]) p "f"
      | none => none) = some (.fn fRec)
  simp only [envF, assocGet]
  simp only [envGetFuel, List.get?_append hlen, h1, h3]


theorem evalFn_funcCall (rec : InterpFns) (li co : ℤ) (callee : ASTNode)
    (args : List ASTNode) (env : ℕ) (s : IState) :
    (interpStep rec).evalFn (.functionCall li co callee args) env s =
      match rec.evalFn callee env s with
      | .exc e1 s1 => .exc e1 s1
      | .ok cv s1 =>
          match rec.evalListFn args env s1 with
          | .exc e2 s2 => .exc e2 s2
          | .ok avs s2 => rec.callFn cv avs li co s2 := rfl

theorem evalFn_ident (rec : InterpFns) (li co : ℤ) (name : String) (env : ℕ)
    (s : IState) :
    (interpStep rec).evalFn (.identifier li co name) env s =
      match envGet s.envs env name with
      | some v => .ok v s
      | none =>
          .exc (.err ⟨.runtimeErr, "Undefined variable '" ++ name ++ "'",
            li, co⟩) s := rfl

theorem evalListFn_nil (rec : InterpFns) (env : ℕ) (s : IState) :
    (interpStep rec).evalListFn [] env s = .ok [] s := rfl

theorem execListFn_cons (rec : InterpFns) (st : ASTNode) (rest : List ASTNode)
    (env : ℕ) (s : IState) :
    (interpStep rec).execListFn (st :: rest) env s =
      match rec.execFn st env s with
      | .exc e1 s1 => .exc e1 s1
      | .ok _ s1 => rec.execListFn rest env s1 := rfl

theorem execListFn_nil (rec : InterpFns) (env : ℕ) (s : IState) :
    (interpStep rec).execListFn [] env s = .ok () s := rfl

theorem execFn_exprStmt (rec : InterpFns) (li co : ℤ) (e1 : ASTNode) (env : ℕ)
    (s : IState) :
    (interpStep rec).execFn (.expressionStatement li co e1) env s =
      match rec.evalFn e1 env s with
      | .exc e2 s1 => .exc e2 s1
      | .ok _ s1 => .ok () s1 := rfl

theorem execFn_funcDef (rec : InterpFns) (li co : ℤ) (name : String)
    (params : List String) (body : List ASTNode) (env : ℕ) (s : IState) :
    (interpStep rec).execFn (.functionDef li co name params body) env s =
      .ok () { s with envs := envDefine s.envs env name (Value.fn ⟨name, params, body, env⟩) } := rfl

theorem callFn_fn_raise (rec : InterpFns) (f : EmberFunction) (args : List Value)
    (li co : ℤ) (s : IState) (hlen : args.length = f.params.length)
    (hdepth : s.callDepth + 1 > (MAX_CALL_DEPTH : ℤ)) :
    (interpStep rec).callFn (.fn f) args li co s =
      .exc (.err ⟨.runtimeErr, "Maximum recursion depth exceeded (" ++
        natStr MAX_CALL_DEPTH ++ ")", li, co⟩)
        { s with callDepth := 0 } := by
  simp only [interpStep]
  rw [if_neg (by simp [hlen]), if_pos (by simpa using hdepth)]

theorem callFn_fn_enter (rec : InterpFns) (f : EmberFunction) (args : List Value)
    (li co : ℤ) (s : IState) (hlen : args.length = f.params.length)
    (hdepth : ¬ s.callDepth + 1 > (MAX_CALL_DEPTH : ℤ)) :
    (interpStep rec).callFn (.fn f) args li co s =
      match rec.execListFn f.body s.envs.length
          ({ s with
              callDepth := s.callDepth + 1,
              envs := s.envs ++ [⟨f.params.zip args, some f.closure⟩] }) with
      | .ok _ s3 => .ok .nil { s3 with callDepth := s3.callDepth - 1 }
      | .exc (.ret v) s3 => .ok v { s3 with callDepth := s3.callDepth - 1 }
      | .exc e1 s3 => .exc e1 { s3 with callDepth := s3.callDepth - 1 } := by
  simp only [interpStep]
  rw [if_neg (by simp [hlen]), if_neg (by simpa using hdepth)]

set_option maxHeartbeats 1000000 in
theorem recBlowup : ∀ k : ℕ, k ≤ 1000 → ∀ (s : IState) (e : ℕ),
    QRec s.envs → envGet s.envs e "f" = some (.fn fRec) →
    s.callDepth = 1000 - (k : ℤ) →
    (interpAt (4 * k + 2)).evalFn callF e s
      = .exc (.err ⟨.runtimeErr, "Maximum recursion depth exceeded (1000)", 1, 1⟩)
          { s with callDepth := -(k : ℤ), envs := s.envs ++ List.replicate k envF } := by
  intro k
  induction k with
  | zero =>
      intro _ s e hQ hf hd
      rw [show (4 * 0 + 2 : ℕ) = 0 + 1 + 1 from rfl, interpAt_succ, interpAt_succ,
        callF, evalFn_funcCall, evalFn_ident, hf]
      dsimp only
      rw [evalListFn_nil]
      dsimp only
      rw [callFn_fn_raise _ fRec [] 1 1 s (by simp [fRec])
        (by rw [hd]; norm_num [MAX_CALL_DEPTH])]
      rw [show natStr MAX_CALL_DEPTH = "1000" from rfl]
      simp
  | succ k ih =>
      intro hk s e hQ hf hd
      have hk' : k ≤ 1000 := by omega
      rw [show 4 * (k + 1) + 2 = 4 * k + 2 + 1 + 1 + 1 + 1 from by ring,
        interpAt_succ, interpAt_succ, interpAt_succ, interpAt_succ,
        callF, evalFn_funcCall, evalFn_ident, hf]
      dsimp only
      rw [evalListFn_nil]
      dsimp only
      rw [callFn_fn_enter _ fRec [] 1 1 s (by simp [fRec])
        (by rw [hd]; norm_num [MAX_CALL_DEPTH]; omega)]
      rw [show (⟨fRec.params.zip ([] : List Value), some fRec.closure⟩ : EnvRec)
        = envF from rfl]
      have hih := ih hk'
        { s with callDepth := s.callDepth + 1, envs := s.envs ++ [envF] }
        s.envs.length
        (QRec_append s.envs [envF] hQ)
        (envGet_newEnv s.envs hQ)
        (by simp [hd]; push_cast; ring)
      rw [show fRec.body = [.expressionStatement 1 1 callF] from rfl,
        execListFn_cons, execFn_exprStmt, callF] at *
      rw [hih]
      dsimp only
      rw [show (-(k : ℤ) - 1) = -((k : ℕ) + 1 : ℤ) from by push_cast; ring,
        show (s.envs ++ [envF]) ++ List.replicate k envF
          = s.envs ++ List.replicate (k + 1) envF from by
            rw [List.append_assoc]; rfl]
      push_cast
      ring_nf


/-- The function value produced by fn g() do return 42 end at global
scope. -/
def gRec : EmberFunction := ⟨"g", [], [.returnStatement 2 14 (some (.numberLiteral 2 21 42))], 0⟩

/-- The call expression g(). -/
def callG : ASTNode := .functionCall 4 1 (.identifier 4 1 "g") []

/-- The program fn f() do f() end, fn g() do return 42 end, f(). -/
def recProg : ASTNode := .program 1 1 [
  .functionDef 1 1 "f" [] [.expressionStatement 1 1 callF],
  .functionDef 2 1 "g" [] [.returnStatement 2 14 (some (.numberLiteral 2 21 42))],
  .expressionStatement 3 1 callF]

/-- The recursion-limit error the unconditional recursion raises. -/
def recErr : EmberError := ⟨.runtimeErr, "Maximum recursion depth exceeded (1000)", 1, 1⟩

/-- The global scope of recProg after both definitions ran. -/
def envGlobal : List EnvRec :=
  envDefine (envDefine [builtinEnv] 0 "f" (.fn fRec)) 0 "g" (.fn gRec)

/-- The global state after the two definitions of recProg ran. -/
def recS2 : IState := ⟨envGlobal, [], 0, [], []⟩

/-- The state recProg aborts in: the call-depth counter was reset to 0 at
the raise and then decremented once by each of the 1000 enclosing frames'
finally clauses, and the 1000 abandoned frame environments remain in the
heap. -/
def recFinal : IState :=
  ⟨envGlobal ++ List.replicate 1000 envF, [], -1000, [], []⟩

theorem evalFn_numLit (rec : InterpFns) (li co : ℤ) (v : ℚ) (env : ℕ) (s : IState) :
    (interpStep rec).evalFn (.numberLiteral li co v) env s = .ok (.num v) s := rfl

theorem execFn_returnSome (rec : InterpFns) (li co : ℤ) (e1 : ASTNode) (env : ℕ)
    (s : IState) :
    (interpStep rec).execFn (.returnStatement li co (some e1)) env s =
      match rec.evalFn e1 env s with
      | .exc e2 s1 => .exc e2 s1
      | .ok v s1 => .exc (.ret v) s1 := rfl

theorem recProg_result :
    executeProgram 4006 recProg initState = .exc (.err recErr) recFinal := by
  have hx : executeProgram 4006 recProg initState
      = (interpAt (4002 + 1 + 1 + 1 + 1)).execListFn
          [.functionDef 1 1 "f" [] [.expressionStatement 1 1 callF],
           .functionDef 2 1 "g" [] [.returnStatement 2 14 (some (.numberLiteral 2 21 42))],
           .expressionStatement 3 1 callF] 0 initState := rfl
  rw [hx, interpAt_succ, interpAt_succ, interpAt_succ, interpAt_succ,
    execListFn_cons, execFn_funcDef]
  dsimp only
  rw [execListFn_cons, execFn_funcDef]
  dsimp only
  rw [execListFn_cons, execFn_exprStmt]
  rw [show envDefine (envDefine initState.envs 0 "f" (Value.fn ⟨"f", [], [.expressionStatement 1 1 callF], 0⟩)) 0 "g" (Value.fn ⟨"g", [], [.returnStatement 2 14 (some (.numberLiteral 2 21 42))], 0⟩) = envGlobal from rfl]
  rw [show ({ envs := envGlobal, lists := initState.lists, callDepth := initState.callDepth, output := initState.output, inputs := initState.inputs } : IState) = recS2 from rfl]
  have hb := recBlowup 1000 (le_refl 1000) recS2 0
    ⟨⟨assocSet (assocSet builtinEnv.values "f" (.fn fRec)) "g" (.fn gRec), none⟩,
      by with_unfolding_all rfl, rfl, by with_unfolding_all rfl⟩
    (by with_unfolding_all rfl)
    (by norm_num [recS2])
  rw [show (4002 : ℕ) = 4 * 1000 + 2 from rfl]
  rw [hb]
  dsimp only
  with_unfolding_all rfl

theorem gCall (n : ℕ) (s : IState) (e : ℕ)
    (hg : envGet s.envs e "g" = some (.fn gRec))
    (hdepth : ¬ s.callDepth + 1 > (MAX_CALL_DEPTH : ℤ)) :
    (interpAt (n + 5)).evalFn callG e s
      = .ok (.num 42) ({ s with envs := s.envs ++ [⟨[], some 0⟩] }) := by
  rw [show n + 5 = n + 1 + 1 + 1 + 1 + 1 from by ring,
    interpAt_succ, interpAt_succ, interpAt_succ, interpAt_succ,
    callG, evalFn_funcCall, evalFn_ident, hg]
  dsimp only
  rw [evalListFn_nil]
  dsimp only
  rw [callFn_fn_enter _ gRec [] 4 1 s (by simp [gRec]) hdepth]
  rw [show (⟨gRec.params.zip ([] : List Value), some gRec.closure⟩ : EnvRec)
    = (⟨[], some 0⟩ : EnvRec) from rfl]
  rw [show gRec.body = [.returnStatement 2 14 (some (.numberLiteral 2 21 42))] from rfl,
    execListFn_cons, execFn_returnSome, interpAt_succ, evalFn_numLit]
  dsimp only
  rw [show s.callDepth + 1 - 1 = s.callDepth from by ring]


/-- C2 counterexample: running the unconditionally recursive program blows
the call-depth limit, and afterwards the call-depth counter is -1000, not 0:
the raise resets it to 0 but each of the 1000 enclosing frames' finally
clauses then decrements it once more during propagation. -/
theorem c2_counterexample :
    executeProgram 4006 recProg initState = .exc (.err recErr) recFinal
    ∧ recFinal.callDepth = -1000 ∧ recFinal.callDepth ≠ 0 :=
  ⟨recProg_result, by decide, by decide⟩

set_option maxRecDepth 20000 in
/-- C2 (amended): when a call would exceed MAX_CALL_DEPTH = 1000, the
evaluator signals RuntimeError "Maximum recursion depth exceeded (1000)";
the counter is set to 0 at the raise and then decremented once per enclosing
frame while the error propagates, ending at -1000 after 1000 frames (not 0);
subsequent top-level calls nevertheless succeed, since the counter is only
checked against the upper bound: in any state binding g to fn g() do return
42 end whose depth admits one more call, evaluating g() returns 42 - in
particular in the post-error state recFinal. -/
theorem c2_recursion_limit :
    executeProgram 4006 recProg initState = .exc (.err recErr) recFinal
    ∧ recFinal.callDepth = -1000
    ∧ (∀ k : ℕ, k ≤ 1000 → ∀ (s : IState) (e : ℕ), QRec s.envs →
        envGet s.envs e "f" = some (.fn fRec) → s.callDepth = 1000 - (k : ℤ) →
        (interpAt (4 * k + 2)).evalFn callF e s = .exc (.err recErr) { s with callDepth := -(k : ℤ), envs := s.envs ++ List.replicate k envF })
    ∧ (∀ (n : ℕ) (s : IState) (e : ℕ), envGet s.envs e "g" = some (.fn gRec) →
        ¬ s.callDepth + 1 > (MAX_CALL_DEPTH : ℤ) →
        (interpAt (n + 5)).evalFn callG e s = .ok (.num 42) { s with envs := s.envs ++ [⟨[], some 0⟩] })
    ∧ (interpAt 5).evalFn callG 0 recFinal = .ok (.num 42) { recFinal with envs := recFinal.envs ++ [⟨[], some 0⟩] } := by
  refine ⟨recProg_result, by decide, ?_, gCall, ?_⟩
  · intro k hk s e hQ hf hd
    exact recBlowup k hk s e hQ hf hd
  · exact gCall 0 recFinal 0 (by with_unfolding_all rfl) (by decide)

/-- C2 witness: in the concrete global state recS2 (f and g defined, depth
0), the hypotheses of the subsequent-call clause hold and g() returns 42. -/
theorem c2_witness :
    envGet recS2.envs 0 "g" = some (.fn gRec)
    ∧ ¬ recS2.callDepth + 1 > (MAX_CALL_DEPTH : ℤ)
    ∧ (interpAt 5).evalFn callG 0 recS2 = .ok (.num 42) { recS2 with envs := recS2.envs ++ [⟨[], some 0⟩] } :=
  ⟨by with_unfolding_all rfl, by decide,
    c2_recursion_limit.2.2.2.1 0 recS2 0 (by with_unfolding_all rfl) (by decide)⟩


theorem digitChar_isDigit (n : ℕ) (h : n < 10) : (digitChar n).isDigit := by
  interval_cases n <;> decide

theorem digitChar_val (n : ℕ) (h : n < 10) : (digitChar n).toNat - 48 = n := by
  interval_cases n <;> decide

theorem digitsVal_foldl (ds : List Char) : ∀ a : ℕ,
    ds.foldl (fun x c => 10 * x + (c.toNat - 48)) a
      = a * 10 ^ ds.length + digitsVal ds := by
  induction ds with
  | nil => intro a; simp [digitsVal]
  | cons c t ih =>
      intro a
      have h1 : digitsVal (c :: t)
          = t.foldl (fun x d => 10 * x + (d.toNat - 48)) (10 * 0 + (c.toNat - 48)) := rfl
      rw [List.foldl_cons, ih, h1, ih, List.length_cons]
      ring

theorem digitsVal_cons (c : Char) (t : List Char) :
    digitsVal (c :: t) = (c.toNat - 48) * 10 ^ t.length + digitsVal t := by
  have h := digitsVal_foldl t (10 * 0 + (c.toNat - 48))
  simpa [digitsVal] using h

theorem digitsVal_append (a b : List Char) :
    digitsVal (a ++ b) = digitsVal a * 10 ^ b.length + digitsVal b := by
  simp [digitsVal, List.foldl_append]
  have h := digitsVal_foldl b (a.foldl (fun x c => 10 * x + (c.toNat - 48)) 0)
  simpa [digitsVal] using h

theorem natStrAux_spec : ∀ fuel n acc, n < 10 ^ (fuel + 1) →
    ∃ ds, natStrAux (fuel + 1) n acc = ds ++ acc ∧ digitsVal ds = n ∧
      ds ≠ [] ∧ ∀ c ∈ ds, c.isDigit := by
  intro fuel
  induction fuel with
  | zero =>
      intro n acc h
      have hn : n < 10 := by simpa using h
      refine ⟨[digitChar n], ?_, ?_, by simp, ?_⟩
      · simp [natStrAux, hn]
      · simp [digitsVal_cons, digitsVal, digitChar_val n hn]
      · intro c hc
        simp at hc
        subst hc
        exact digitChar_isDigit n hn
  | succ fuel ih =>
      intro n acc h
      by_cases hn : n < 10
      · refine ⟨[digitChar n], ?_, ?_, by simp, ?_⟩
        · simp [natStrAux, hn]
        · simp [digitsVal_cons, digitsVal, digitChar_val n hn]
        · intro c hc
          simp at hc
          subst hc
          exact digitChar_isDigit n hn
      · have hdiv : n / 10 < 10 ^ (fuel + 1) := by
          rw [Nat.div_lt_iff_lt_mul (by norm_num)]
          calc n < 10 ^ (fuel + 1 + 1) := h
            _ = 10 ^ (fuel + 1) * 10 := by ring
        obtain ⟨ds, heq, hval, hne, hdig⟩ :=
          ih (n / 10) (digitChar (n % 10) :: acc) hdiv
        refine ⟨ds ++ [digitChar (n % 10)], ?_, ?_, by simp, ?_⟩
        · have : natStrAux (fuel + 1 + 1) n acc
              = natStrAux (fuel + 1) (n / 10) (digitChar (n % 10) :: acc) := by
            simp [natStrAux, hn]
          rw [this, heq]
          simp
        · have hm : n % 10 < 10 := Nat.mod_lt _ (by norm_num)
          rw [digitsVal_append, hval]
          simp [digitsVal_cons, digitsVal, digitChar_val _ hm]
          omega
        · intro c hc
          rcases List.mem_append.mp hc with h1 | h1
          · exact hdig c h1
          · simp at h1
            subst h1
            exact digitChar_isDigit _ (Nat.mod_lt _ (by norm_num))

theorem natStr_spec (n : ℕ) :
    ∃ ds, natStr n = String.mk ds ∧ digitsVal ds = n ∧ ds ≠ [] ∧
      ∀ c ∈ ds, c.isDigit := by
  have hb : n < 10 ^ (n + 1) := by
    calc n < 2 ^ n := Nat.lt_two_pow n
      _ ≤ 10 ^ n := Nat.pow_le_pow_left (by norm_num) n
      _ ≤ 10 ^ (n + 1) := Nat.pow_le_pow_right (by norm_num) (by omega)
  obtain ⟨ds, heq, hval, hne, hdig⟩ := natStrAux_spec n n [] hb
  exact ⟨ds, by simp [natStr, heq], hval, hne, hdig⟩


theorem takeDigits_all : ∀ (ds rest : List Char), (∀ c ∈ ds, c.isDigit) →
    (∀ c, rest.head? = some c → ¬ c.isDigit) →
    takeDigits (ds ++ rest) = (ds, rest) := by
  intro ds
  induction ds with
  | nil =>
      intro rest _ hrest
      cases rest with
      | nil => rfl
      | cons c r =>
          have : ¬ c.isDigit := hrest c rfl
          simp [takeDigits, this]
  | cons d t ih =>
      intro rest hds hrest
      have hd : d.isDigit := hds d (by simp)
      have ht := ih rest (fun c hc => hds c (by simp [hc])) hrest
      simp [takeDigits, hd, ht]

theorem splitNumber_spec (ds fs : List Char) (hds : ∀ c ∈ ds, c.isDigit)
    (hfs : ∀ c ∈ fs, c.isDigit) :
    splitNumber (ds ++ (if fs.isEmpty then [] else '.' :: fs)) = (ds, fs, []) := by
  cases fs with
  | nil =>
      have h1 : takeDigits ds = (ds, []) := by
        simpa using takeDigits_all ds [] hds (by intro c hc; simp at hc)
      simp only [List.isEmpty_nil, if_pos]
      simp [splitNumber, h1]
  | cons f ft =>
      have h1 := takeDigits_all ds ('.' :: f :: ft) hds
        (by intro c hc; simp at hc; subst hc; decide)
      have h2 : takeDigits (f :: ft) = (f :: ft, []) := by
        simpa using takeDigits_all (f :: ft) [] hfs (by intro c hc; simp at hc)
      have hf : f.isDigit := hfs f (by simp)
      simp only [List.isEmpty_cons, if_neg]
      simp [splitNumber, h1, h2, hf]

theorem isDigit_facts (c : Char) (h : c.isDigit) :
    ¬(c = ' ' ∨ c = '\t' ∨ c = '\r') ∧ c ≠ '\n' ∧ c ≠ '#' ∧ c ≠ '"' := by
  refine ⟨?_, ?_, ?_, ?_⟩
  · rintro (rfl | rfl | rfl) <;> exact absurd h (by decide)
  all_goals intro hc; subst hc; exact absurd h (by decide)


theorem runLex_num (c : Char) (ds fs : List Char)
    (hc : c.isDigit) (hds : ∀ d ∈ ds, d.isDigit) (hfs : ∀ d ∈ fs, d.isDigit) :
    ∀ p : LexPos, ∀ toks : List Token,
    runLex ((ds ++ (if fs.isEmpty then [] else '.' :: fs)).length + 1 + 1)
        (c :: (ds ++ (if fs.isEmpty then [] else '.' :: fs))) p toks
      = .ok (toks ++ [⟨.NUMBER,
          String.mk (c :: (ds ++ (if fs.isEmpty then [] else '.' :: fs))),
          some (.numL (decodeNum (c :: ds) fs)), p.line, p.col⟩],
        ⟨p.line, p.col + (1 + ds.length + (if fs.isEmpty then 0 else 1 + fs.length))⟩) := by
  intro p toks
  obtain ⟨hsp, hnl, hhash, hquot⟩ := isDigit_facts c hc
  rw [runLex]
  rw [if_neg hsp, if_neg hnl, if_neg hhash,
    if_neg hquot, if_pos hc]
  rw [splitNumber_spec ds fs hds hfs]
  simp only [advPos, if_neg hnl]
  rw [runLex]
  · cases hfe : fs.isEmpty <;> simp [hfe] <;> omega
  all_goals (intro rest2 hce hx; subst hce; exact absurd hc (by decide))


theorem tokenize_num (c : Char) (ds fs : List Char)
    (hc : c.isDigit) (hds : ∀ d ∈ ds, d.isDigit) (hfs : ∀ d ∈ fs, d.isDigit) :
    tokenize (String.mk (c :: (ds ++ (if fs.isEmpty then [] else '.' :: fs))))
      = .ok [⟨.NUMBER, String.mk (c :: (ds ++ (if fs.isEmpty then [] else '.' :: fs))),
              some (.numL (decodeNum (c :: ds) fs)), 1, 1⟩,
             ⟨.NEWLINE, "\\n", none, 1,
               1 + (1 + (ds.length : ℤ) + (if fs.isEmpty then 0 else 1 + fs.length))⟩,
             ⟨.EOF, "", none, 1,
               1 + (1 + (ds.length : ℤ) + (if fs.isEmpty then 0 else 1 + fs.length))⟩] := by
  have hr := runLex_num c ds fs hc hds hfs ⟨1, 1⟩ []
  unfold tokenize
  rw [show (String.mk (c :: (ds ++ (if fs.isEmpty then [] else '.' :: fs)))).length
      = (ds ++ (if fs.isEmpty then [] else '.' :: fs)).length + 1 from by
        simp [String.length]]
  rw [show (String.mk (c :: (ds ++ (if fs.isEmpty then [] else '.' :: fs)))).toList
      = c :: (ds ++ (if fs.isEmpty then [] else '.' :: fs)) from rfl]
  rw [hr]
  simp [List.getLast?]


theorem fracDigitsAux_spec : ∀ (fuel : ℕ) (f : ℚ), 0 ≤ f → f < 1 →
    (∃ z : ℤ, ((10 : ℚ) ^ fuel) * f = (z : ℚ)) →
    (∀ c ∈ fracDigitsAux fuel f, c.isDigit) ∧
      ((digitsVal (fracDigitsAux fuel f) : ℚ)
        / 10 ^ (fracDigitsAux fuel f).length = f) := by
  intro fuel
  induction fuel with
  | zero =>
      intro f h0 h1 hz
      obtain ⟨z, hz⟩ := hz
      have hzq : (z : ℚ) = f := by rw [← hz]; ring
      have hb0 : (0 : ℚ) ≤ (z : ℚ) := by rw [hzq]; exact h0
      have hb1 : (z : ℚ) < 1 := by rw [hzq]; exact h1
      have hb0i : (0 : ℤ) ≤ z := by exact_mod_cast hb0
      have hb1i : z < 1 := by exact_mod_cast hb1
      have hz0 : z = 0 := by omega
      have hf0 : f = 0 := by rw [← hzq, hz0]; norm_num
      subst hf0
      simp [fracDigitsAux, digitsVal]
  | succ fuel ih =>
      intro f h0 h1 hz
      obtain ⟨z, hz⟩ := hz
      by_cases hf : f = 0
      · subst hf
        simp [fracDigitsAux, digitsVal]
      · have hstep : fracDigitsAux (fuel + 1) f
            = digitChar (⌊f * 10⌋).toNat
              :: fracDigitsAux fuel (f * 10 - ⌊f * 10⌋) := by
          simp [fracDigitsAux, hf]
        have h010 : (0 : ℚ) ≤ f * 10 := by positivity
        have hlt10 : f * 10 < 10 := by nlinarith
        have hfl0 : (0 : ℤ) ≤ ⌊f * 10⌋ := Int.floor_nonneg.mpr h010
        have hfl10 : ⌊f * 10⌋ < 10 := by
          have := Int.floor_le_floor hlt10.le
          have h10 : (⌊(10 : ℚ)⌋ : ℤ) = 10 := by norm_num
          have hle : ⌊f * 10⌋ ≤ 10 := by
            calc ⌊f * 10⌋ ≤ ⌊(10 : ℚ)⌋ := Int.floor_le_floor hlt10.le
              _ = 10 := h10
          rcases lt_or_eq_of_le hle with h | h
          · exact h
          · exfalso
            have : (10 : ℚ) ≤ f * 10 := by
              calc (10 : ℚ) = ((⌊f * 10⌋ : ℤ) : ℚ) := by exact_mod_cast h.symm
                _ ≤ f * 10 := Int.floor_le _
            linarith
        have hcast : ((⌊f * 10⌋).toNat : ℤ) = ⌊f * 10⌋ := Int.toNat_of_nonneg hfl0
        have hdlt : (⌊f * 10⌋).toNat < 10 := by omega
        have hfrac0 : (0 : ℚ) ≤ f * 10 - ⌊f * 10⌋ := by
          have := Int.floor_le (f * 10)
          linarith
        have hfrac1 : f * 10 - ⌊f * 10⌋ < 1 := by
          have := Int.lt_floor_add_one (f * 10)
          linarith
        have hznext : ∃ z' : ℤ, ((10 : ℚ) ^ fuel) * (f * 10 - ⌊f * 10⌋) = (z' : ℚ) := by
          refine ⟨z - 10 ^ fuel * ⌊f * 10⌋, ?_⟩
          push_cast
          rw [← hz]
          ring
        obtain ⟨ihd, ihv⟩ := ih (f * 10 - ⌊f * 10⌋) hfrac0 hfrac1 hznext
        constructor
        · intro d hd
          rw [hstep] at hd
          rcases List.mem_cons.mp hd with h | h
          · subst h
            exact digitChar_isDigit _ hdlt
          · exact ihd d h
        · rw [hstep, digitsVal_cons, List.length_cons]
          rw [digitChar_val _ hdlt]
          have hpow : ((10 : ℚ) ^ (fracDigitsAux fuel (f * 10 - ⌊f * 10⌋)).length) ≠ 0 := by
            positivity
          have hDval := ihv
          rw [div_eq_iff hpow] at hDval
          have hcastQ : ((⌊f * 10⌋.toNat : ℕ) : ℚ) = ((⌊f * 10⌋ : ℤ) : ℚ) := by
            exact_mod_cast hcast
          push_cast
          rw [hcastQ, hDval, pow_succ]
          rw [div_eq_iff (by positivity)]
          ring


theorem tokenize_num_len (c : Char) (ds fs : List Char)
    (hc : c.isDigit) (hds : ∀ d ∈ ds, d.isDigit) (hfs : ∀ d ∈ fs, d.isDigit) :
    tokenize (String.mk (c :: (ds ++ (if fs.isEmpty then [] else '.' :: fs))))
      = .ok [⟨.NUMBER, String.mk (c :: (ds ++ (if fs.isEmpty then [] else '.' :: fs))),
              some (.numL (decodeNum (c :: ds) fs)), 1, 1⟩,
             ⟨.NEWLINE, "\\n", none, 1,
               1 + ((String.mk (c :: (ds ++ (if fs.isEmpty then [] else '.' :: fs)))).length : ℤ)⟩,
             ⟨.EOF, "", none, 1,
               1 + ((String.mk (c :: (ds ++ (if fs.isEmpty then [] else '.' :: fs)))).length : ℤ)⟩] := by
  rw [tokenize_num c ds fs hc hds hfs]
  have hlen : ((String.mk (c :: (ds ++ (if fs.isEmpty then [] else '.' :: fs)))).length : ℤ)
      = 1 + (ds.length : ℤ) + (if fs.isEmpty then 0 else 1 + fs.length) := by
    cases hfe : fs.isEmpty <;> simp [String.length, hfe] <;> push_cast <;> ring
  rw [hlen]

theorem formatNumber_int_case (q : ℚ) (h0 : 0 ≤ q) (hint : q = ((pyInt q : ℤ) : ℚ)) :
    ∃ c dtl, formatNumber q = String.mk (c :: dtl) ∧ c.isDigit ∧
      (∀ d ∈ dtl, d.isDigit) ∧ decodeNum (c :: dtl) [] = q := by
  have hpy : pyInt q = ⌊q⌋ := by simp [pyInt, h0]
  have hfl0 : (0 : ℤ) ≤ ⌊q⌋ := Int.floor_nonneg.mpr h0
  have hqn : q = (((⌊q⌋).toNat : ℕ) : ℚ) := by
    rw [hint, hpy]
    exact_mod_cast (Int.toNat_of_nonneg hfl0).symm
  obtain ⟨ds, hmk, hval, hne, hdig⟩ := natStr_spec (⌊q⌋).toNat
  have hint2 : q = ((⌊q⌋ : ℤ) : ℚ) := by rw [← hpy]; exact hint
  have hfmt : formatNumber q = String.mk ds := by
    simp only [formatNumber, hpy, intStr]
    rw [if_pos hint2, if_neg (show ¬ ⌊q⌋ < 0 by omega)]
    rw [show (⌊q⌋).natAbs = (⌊q⌋).toNat from by omega]
    exact hmk
  cases ds with
  | nil => exact absurd rfl hne
  | cons c dtl =>
      refine ⟨c, dtl, hfmt, hdig c (by simp), fun d hd => hdig d (by simp [hd]), ?_⟩
      simp only [decodeNum, hval]
      simp [digitsVal]
      exact hqn.symm

theorem c5core_int (q : ℚ) (h0 : 0 ≤ q) (hint : q = ((pyInt q : ℤ) : ℚ)) :
    tokenize (formatNumber q)
      = .ok [⟨.NUMBER, formatNumber q, some (.numL q), 1, 1⟩,
             ⟨.NEWLINE, "\\n", none, 1, 1 + ((formatNumber q).length : ℤ)⟩,
             ⟨.EOF, "", none, 1, 1 + ((formatNumber q).length : ℤ)⟩] := by
  obtain ⟨c, dtl, hfmt, hc, hds, hdec⟩ := formatNumber_int_case q h0 hint
  have htn := tokenize_num_len c dtl [] hc hds (by intro d hd; simp at hd)
  simp only [List.isEmpty_nil, if_pos, List.append_nil] at htn
  rw [hfmt, htn, hdec]


theorem c5core_frac (q : ℚ) (h0 : 0 ≤ q) (hint : ¬ q = ((pyInt q : ℤ) : ℚ))
    (hfin : ∃ z : ℤ, ((10 : ℚ) ^ q.den) * q = (z : ℚ)) :
    tokenize (formatNumber q)
      = .ok [⟨.NUMBER, formatNumber q, some (.numL q), 1, 1⟩,
             ⟨.NEWLINE, "\\n", none, 1, 1 + ((formatNumber q).length : ℤ)⟩,
             ⟨.EOF, "", none, 1, 1 + ((formatNumber q).length : ℤ)⟩] := by
  have hpy : pyInt q = ⌊q⌋ := by simp [pyInt, h0]
  have habs : |q| = q := abs_of_nonneg h0
  have hfl0 : (0 : ℤ) ≤ ⌊q⌋ := Int.floor_nonneg.mpr h0
  have hf0 : (0 : ℚ) ≤ q - ⌊q⌋ := by
    have := Int.floor_le q
    linarith
  have hf1 : q - ⌊q⌋ < 1 := by
    have := Int.lt_floor_add_one q
    linarith
  have hfne : ¬ (q - (⌊q⌋ : ℚ) = 0) := by
    intro h
    apply hint
    rw [hpy]
    have : q = ((⌊q⌋ : ℤ) : ℚ) := by linarith
    exact this
  have hzf : ∃ z : ℤ, ((10 : ℚ) ^ q.den) * (q - ⌊q⌋) = (z : ℚ) := by
    obtain ⟨z, hz⟩ := hfin
    refine ⟨z - 10 ^ q.den * ⌊q⌋, ?_⟩
    push_cast
    rw [← hz]
    ring
  obtain ⟨hdig2, hval2⟩ := fracDigitsAux_spec q.den (q - ⌊q⌋) hf0 hf1 hzf
  obtain ⟨ds, hmk, hval, hne, hdig⟩ := natStr_spec (⌊q⌋).toNat
  have hint2 : ¬ q = ((⌊q⌋ : ℤ) : ℚ) := by rw [← hpy]; exact hint
  have hfmt : formatNumber q
      = natStr (⌊q⌋).toNat ++ "." ++ String.mk (fracDigitsAux q.den (q - ⌊q⌋)) := by
    simp only [formatNumber, hpy, habs, if_neg hint2, if_neg (not_lt.mpr h0)]
    rfl
  cases hds : ds with
  | nil => exact absurd (hds ▸ hne) (by simp)
  | cons c dtl =>
  cases hfds : fracDigitsAux q.den (q - ⌊q⌋) with
  | nil =>
      exfalso
      rw [hfds] at hval2
      simp [digitsVal] at hval2
      exact hfne hval2.symm
  | cons e ftl =>
  have hc : c.isDigit := hdig c (by simp [hds])
  have hdsd : ∀ d ∈ dtl, d.isDigit := fun d hd => hdig d (by simp [hds, hd])
  have hfsd : ∀ d ∈ (e :: ftl), d.isDigit := by
    intro d hd
    exact hdig2 d (by rw [hfds]; exact hd)
  have htn := tokenize_num_len c dtl (e :: ftl) hc hdsd hfsd
  have hcond : ((e :: ftl).isEmpty = true) = False := by simp
  simp only [hcond, if_false] at htn
  have hcat : formatNumber q = String.mk (c :: (dtl ++ '.' :: (e :: ftl))) := by
    rw [hfmt, hfds, hmk, hds]
    show String.mk (((c :: dtl) ++ ['.']) ++ (e :: ftl)) = _
    simp
  have hdec : decodeNum (c :: dtl) (e :: ftl) = q := by
    have hvq : ((((⌊q⌋).toNat : ℕ)) : ℚ) = ((⌊q⌋ : ℤ) : ℚ) := by
      exact_mod_cast Int.toNat_of_nonneg hfl0
    rw [hfds] at hval2
    simp only [decodeNum]
    rw [hds] at hval
    rw [hval, hvq, hval2]
    ring
  rw [hcat, htn, hdec]

theorem c5core (q : ℚ) (h0 : 0 ≤ q)
    (hfin : ∃ z : ℤ, ((10 : ℚ) ^ q.den) * q = (z : ℚ)) :
    tokenize (formatNumber q)
      = .ok [⟨.NUMBER, formatNumber q, some (.numL q), 1, 1⟩,
             ⟨.NEWLINE, "\\n", none, 1, 1 + ((formatNumber q).length : ℤ)⟩,
             ⟨.EOF, "", none, 1, 1 + ((formatNumber q).length : ℤ)⟩] := by
  by_cases hint : q = ((pyInt q : ℤ) : ℚ)
  · exact c5core_int q h0 hint
  · exact c5core_frac q h0 hint hfin


/-- C5 counterexample: the display form of the Number -1 is "-1", which
re-lexes as a MINUS token followed by NUMBER 1 - not as a NUMBER token
whose decoded literal equals the original value -1. -/
theorem c5_counterexample :
    formatNumber (-1) = "-1"
    ∧ tokenize (formatNumber (-1))
        = .ok [⟨.MINUS, "-", none, 1, 1⟩, ⟨.NUMBER, "1", some (.numL 1), 1, 2⟩,
               ⟨.NEWLINE, "\\n", none, 1, 3⟩, ⟨.EOF, "", none, 1, 3⟩]
    ∧ (1 : ℚ) ≠ -1 := by
  refine ⟨by with_unfolding_all rfl, by with_unfolding_all rfl, by norm_num⟩

/-- C5 (amended): for every non-negative Number with a finite decimal
expansion (every non-negative Python float in its plain-decimal regime),
rendering it with the display rule and re-lexing yields exactly a NUMBER
token decoding to the original value, a NEWLINE and an EOF.  Negative
numbers re-lex as MINUS followed by the NUMBER of the absolute value. -/
theorem c5_display_roundtrip (q : ℚ) (h0 : 0 ≤ q)
    (hfin : ∃ z : ℤ, ((10 : ℚ) ^ q.den) * q = (z : ℚ)) :
    tokenize (formatNumber q)
      = .ok [⟨.NUMBER, formatNumber q, some (.numL q), 1, 1⟩,
             ⟨.NEWLINE, "\\n", none, 1, 1 + ((formatNumber q).length : ℤ)⟩,
             ⟨.EOF, "", none, 1, 1 + ((formatNumber q).length : ℤ)⟩] :=
  c5core q h0 hfin

/-- C5 witness: 3/2 renders as "1.5" and re-lexes to NUMBER 3/2. -/
theorem c5_witness :
    (0 : ℚ) ≤ 3 / 2 ∧ ((10 : ℚ) ^ (3 / 2 : ℚ).den) * (3 / 2) = ((150 : ℤ) : ℚ)
    ∧ formatNumber (3 / 2) = "1.5"
    ∧ tokenize "1.5"
        = .ok [⟨.NUMBER, "1.5", some (.numL (3 / 2)), 1, 1⟩,
               ⟨.NEWLINE, "\\n", none, 1, 4⟩, ⟨.EOF, "", none, 1, 4⟩] := by
  refine ⟨by norm_num, by with_unfolding_all rfl, by with_unfolding_all rfl, ?_⟩
  have h := c5_display_roundtrip (3 / 2) (by norm_num) ⟨150, by with_unfolding_all rfl⟩
  rw [show formatNumber (3 / 2 : ℚ) = "1.5" from by with_unfolding_all rfl] at h
  have h2 : ((("1.5" : String).length : ℕ) : ℤ) = 3 := by with_unfolding_all rfl
  rw [h2] at h
  norm_num at h
  exact h

end Ember
